import Mathlib

/-!
Verification of the `file_hash` repository: a shallow embedding of the two
in-memory open-addressing hash tables (`src/hash.rs` and `src/hash_bucket.rs`)
over byte buffers modelled as `List Nat` (one element per byte).

Conventions used throughout:
* Rust `&str` keys and values are modelled as their byte sequences
  (`List Nat`); all concrete inputs used in theorems are ASCII, where the
  source's `chars()` iteration coincides with byte iteration, and where
  `String::from_utf8_lossy` is the identity.
* `String::from_utf8_lossy(..).trim_end_matches('\0')` is modelled as
  dropping trailing zero bytes from the byte list (for valid UTF-8 data no
  multi-byte character ends in a 0x00 byte, so this is exact).
* The flat `Vec<u8>` buffers are modelled as flat `List Nat`; slot `i` of
  width `S` lives at offset `i * S`, exactly as in the source.
* Panics (failed `assert!`, out-of-range slicing, `%` by zero) are modelled
  by `Option`/`Except` results: `none` / `.error` means the Rust program
  panics (or, for the one unbounded scan loop, diverges).
* The source's unbounded rebuild recursion (`set` → `extend` → `set`) is
  modelled with an explicit recursion-depth fuel; theorems prove the fuel
  is never exhausted in the situations they cover.
-/

/-- Rust `Vec::resize(n, 0)` applied after `Vec::from(s.as_bytes())`:
truncate to `n` elements or right-pad with zero bytes up to length `n`. -/
def resizeZero (l : List Nat) (n : Nat) : List Nat :=
  l.take n ++ List.replicate (n - l.length) 0

/-- `String::from_utf8_lossy(..).trim_end_matches('\0')` on a byte buffer:
drop all trailing zero bytes. -/
def trimZeros (l : List Nat) : List Nat :=
  (l.reverse.dropWhile (fun b => b == 0)).reverse

/-- Tail-recursive length accumulator. -/
def lenAux : List Nat → Nat → Nat
  | [], n => n
  | _ :: l, n => lenAux l (n + 1)

/-- Rust `Vec::len()` (tail-recursive, so that concrete tables reduce without
deep recursion; `vecLen_eq` identifies it with `List.length`). -/
def vecLen (l : List Nat) : Nat :=
  lenAux l 0

/-- Rust slice read `l[off..off+n]`. -/
def readSlice (l : List Nat) (off n : Nat) : List Nat :=
  (l.drop off).take n

/-- Rust `l[off..off+b.len()].copy_from_slice(&b)`. -/
def writeSlice (l : List Nat) (off : Nat) (b : List Nat) : List Nat :=
  l.take off ++ b ++ l.drop (off + b.length)

/-- Decidable equality for `Except` results, used to state concrete runs. -/
instance exceptDecEq {e a : Type} [DecidableEq e] [DecidableEq a] :
    DecidableEq (Except e a) := fun x y =>
  match x, y with
  | .error u, .error w =>
    if h : u = w then isTrue (by rw [h])
    else isFalse (fun hh => h (by injection hh))
  | .ok u, .ok w =>
    if h : u = w then isTrue (by rw [h])
    else isFalse (fun hh => h (by injection hh))
  | .error _, .ok _ => isFalse (fun hh => Except.noConfusion hh)
  | .ok _, .error _ => isFalse (fun hh => Except.noConfusion hh)

/-- 2^64, the modulus of wrapping `usize` arithmetic (64-bit target). -/
def w64 : Nat := 2 ^ 64

/-- One step of the source's djb2 loop:
`result = ((result << 5).wrapping_add(result)).wrapping_add(c as usize)`.
`<< 5` discards high bits, i.e. multiplies by 32 modulo 2^64. -/
def djb2Step (h c : Nat) : Nat :=
  ((h * 32 % w64 + h) % w64 + c) % w64

/-- The `Hashable::hash` implementation shared by `hash.rs`, `hash_bucket.rs`
and `table.rs`: djb2 with seed 5381, folded over the characters of the key
(`self.chars()`, i.e. Unicode scalar values; for ASCII keys these are
exactly the bytes). -/
def djb2 (key : List Nat) : Nat :=
  key.foldl djb2Step 5381

/-- Modelled from the spec: the Hasher contract of section 4.1 reads
"`h = h*33 + byte` per input byte, wrapping arithmetic": the same djb2
recurrence but folded over the UTF-8 **bytes** of the key.  Used only to
compare against the source's per-character fold. -/
def djb2SpecPerByte (utf8Bytes : List Nat) : Nat :=
  utf8Bytes.foldl (fun h c => (33 * h + c) % w64) 5381

/-- UTF-8 encoding of a list of Unicode scalar values below 0x800
(one- and two-byte sequences only; enough to exhibit a non-ASCII key). -/
def utf8TwoByte (scalars : List Nat) : List Nat :=
  scalars.flatMap fun c =>
    if c < 128 then [c] else [192 + c / 64, 128 + c % 64]

namespace Hash

/-!
Model of `src/hash.rs`: slots are 128 bytes (32-byte zero-padded key,
96-byte zero-padded value), stored in a flat buffer `kvs`; a slot is
occupied iff its first byte is nonzero.
-/

/-- The `HashTable` struct of `hash.rs`. -/
structure HashTable where
  kvs : List Nat
  size : Nat
  no_of_taken : Nat
  deriving Repr, DecidableEq

/-- `HashTable::new()`: 32 slots of 128 bytes, all zero. -/
def new : HashTable :=
  ⟨List.replicate 4096 0, 32, 0⟩

/-- `HashItem::new(key, value)`: 128-byte buffer, key resized to 32 bytes,
value resized to 96 bytes, both zero-padded. -/
def itemNew (key value : List Nat) : List Nat :=
  resizeZero key 32 ++ resizeZero value 96

/-- `HashItem::from_bytes`: `None` iff the first byte is zero, otherwise
the (still padded) 32-byte key and 96-byte value. -/
def fromBytes (b : List Nat) : Option (List Nat × List Nat) :=
  if b.head? = some 0 then none else some (b.take 32, b.drop 32)

/-- `(self.size as f64 * 0.75) as usize`.  `0.75` is exactly representable
and the product and truncation are exact for every `size < 2^51`, where the
cast equals `3 * size / 4` in integer arithmetic. -/
def load_factor (size : Nat) : Nat :=
  3 * size / 4

/-- `(self.size as f64 * 0.1) as usize`: for every `size < 2^49` the rounded
product truncates to `size / 10` in integer arithmetic. -/
def compactThreshold (size : Nat) : Nat :=
  size / 10

/-- The probe loop of `HashTable::set` (after the load-factor check): at
each visited slot, an occupied slot with the same trimmed key is
overwritten in place, an empty slot receives the bucket and bumps
`no_of_taken`; otherwise probing continues at `(index + 1) % size`.  If the
`for` loop exhausts all `size` iterations nothing is written.  `none`
models the `assert!(offset + 128 <= self.kvs.len())` failing. -/
def setLoop (key bucket : List Nat) (size : Nat) :
    Nat → Nat → List Nat → Nat → Option (List Nat × Nat)
  | 0, _, kvs, taken => some (kvs, taken)
  | fuel+1, index, kvs, taken =>
    let offset := index * 128
    if offset + 128 ≤ vecLen kvs then
      match fromBytes (readSlice kvs offset 128) with
      | some item =>
        if trimZeros item.1 = key then
          some (writeSlice kvs offset bucket, taken)
        else
          setLoop key bucket size fuel ((index + 1) % size) kvs taken
      | none => some (writeSlice kvs offset bucket, taken + 1)
    else none

/-- The body of `HashTable::set` after the possible `extend`: compute the
home index (`%` by zero panics if `size = 0`) and run the probe loop. -/
def insertStep (t : HashTable) (key value : List Nat) : Option HashTable :=
  if t.size = 0 then none
  else
    (setLoop key (itemNew key value) t.size t.size (djb2 key % t.size)
        t.kvs t.no_of_taken).map
      fun p => ⟨p.1, t.size, p.2⟩

/-- The re-insertion loop shared by `extend` and `compact`: walk the given
slot indices of the old buffer in order, decode each slot, and re-insert
every decoded record into the accumulator table through the given put
path. -/
def reinsertWith (setFn : HashTable → List Nat → List Nat → Option HashTable)
    (oldKvs : List Nat) : List Nat → HashTable → Option HashTable
  | [], acc => some acc
  | i :: rest, acc =>
    let offset := i * 128
    if offset + 128 ≤ vecLen oldKvs then
      match fromBytes (readSlice oldKvs offset 128) with
      | some item =>
        (setFn acc (trimZeros item.1) (trimZeros item.2)).bind
          (reinsertWith setFn oldKvs rest)
      | none => reinsertWith setFn oldKvs rest acc
    else none

/-- `HashTable::set` with explicit rebuild-depth fuel `d`: when
`no_of_taken >= load_factor` the table is first rebuilt at twice the size
by re-inserting every record via `set` itself (fuel `d - 1`); `none` at
fuel 0 models the unbounded recursion of the source. -/
def set : Nat → HashTable → List Nat → List Nat → Option HashTable
  | 0, t, key, value =>
    if load_factor t.size ≤ t.no_of_taken then none
    else insertStep t key value
  | d+1, t, key, value =>
    if load_factor t.size ≤ t.no_of_taken then
      (reinsertWith (set d) t.kvs (List.range t.size)
          ⟨List.replicate (t.size * 2 * 128) 0, t.size * 2, 0⟩).bind
        fun t1 => insertStep t1 key value
    else insertStep t key value

/-- `HashTable::extend`: allocate a table of size `2 * size` and re-insert
every decoded record through the normal `set` path (`set` at fuel `d`). -/
def extend (d : Nat) (t : HashTable) : Option HashTable :=
  reinsertWith (set d) t.kvs (List.range t.size)
    ⟨List.replicate (t.size * 2 * 128) 0, t.size * 2, 0⟩

/-- `HashTable::compact`: rebuild at half the size. -/
def compact (d : Nat) (t : HashTable) : Option HashTable :=
  reinsertWith (set d) t.kvs (List.range t.size)
    ⟨List.replicate (t.size / 2 * 128) 0, t.size / 2, 0⟩

/-- The probe loop of `HashTable::get`: an empty slot (or an exhausted
loop) means absence; a matching occupied slot returns the trimmed value.
The outer `Option` is the panic layer (the bounds `assert!`). -/
def getLoop (key : List Nat) (size : Nat) (kvs : List Nat) :
    Nat → Nat → Option (Option (List Nat))
  | 0, _ => some none
  | fuel+1, index =>
    let offset := index * 128
    if offset + 128 ≤ vecLen kvs then
      match fromBytes (readSlice kvs offset 128) with
      | some item =>
        if trimZeros item.1 = key then some (some (trimZeros item.2))
        else getLoop key size kvs fuel ((index + 1) % size)
      | none => some none
    else none

/-- `HashTable::get`. -/
def get (t : HashTable) (key : List Nat) : Option (Option (List Nat)) :=
  if t.size = 0 then none
  else getLoop key t.size t.kvs t.size (djb2 key % t.size)

/-- The probe loop of `HashTable::del`: on a match the slot is zeroed, the
counter decremented (guarded against underflow as in the source), and when
the counter falls to `size / 10` or below the table is compacted before
returning the trimmed old value. -/
def delLoop (d : Nat) (key : List Nat) (size : Nat) :
    Nat → Nat → List Nat → Nat → Option (HashTable × Option (List Nat))
  | 0, _, kvs, taken => some (⟨kvs, size, taken⟩, none)
  | fuel+1, index, kvs, taken =>
    let offset := index * 128
    if offset + 128 ≤ vecLen kvs then
      match fromBytes (readSlice kvs offset 128) with
      | some item =>
        if trimZeros item.1 = key then
          let kvs1 := writeSlice kvs offset (List.replicate 128 0)
          let taken1 := if 0 < taken then taken - 1 else taken
          if taken1 ≤ compactThreshold size then
            (compact d ⟨kvs1, size, taken1⟩).map
              fun t2 => (t2, some (trimZeros item.2))
          else some (⟨kvs1, size, taken1⟩, some (trimZeros item.2))
        else delLoop d key size fuel ((index + 1) % size) kvs taken
      | none => some (⟨kvs, size, taken⟩, none)
    else none

/-- `HashTable::del` with rebuild fuel `d` for the possible `compact`. -/
def del (d : Nat) (t : HashTable) (key : List Nat) :
    Option (HashTable × Option (List Nat)) :=
  if t.size = 0 then none
  else delLoop d key t.size t.size (djb2 key % t.size) t.kvs t.no_of_taken

/-- The public operations: one unit of rebuild fuel is what the source's
call graph can consume from a `set` (`set` → `extend` → `set`, where the
inner `set` provably never extends again), and similarly for `del` →
`compact` → `set` → `extend` → `set`. -/
def setOp (t : HashTable) (key value : List Nat) : Option HashTable :=
  set 1 t key value

def delOp (t : HashTable) (key : List Nat) :
    Option (HashTable × Option (List Nat)) :=
  del 1 t key

end Hash

namespace HashBucket

/-!
Model of `src/hash_bucket.rs`: slots ("buckets") are 8 bytes in a flat
buffer of 32 slots.  Tag byte layout per the source comment:
`0` empty, `1` last chunk, `2` single item, `3` chain head (index bucket),
`4..n` interior chunks ("shards").  A single-item bucket is
`[2, key0, key1, key2, v0, v1, v2, v3]`; an index bucket is
`[3, key0, key1, key2, i0lo, i0hi, i1lo, i1hi]`; a value bucket is
`[tag, v0 .. v6]`.  Panics (`assert!`, out-of-range slicing, `unwrap` on a
wrong-length slice) are `Except.error`.
-/

/-- The `HashTable` struct of `hash_bucket.rs`. -/
structure HashTable where
  kvs : List Nat
  size : Nat
  no_of_taken : Nat
  deriving Repr, DecidableEq

/-- `HashTable::new()`: 32 slots of 8 bytes, all zero. -/
def new : HashTable :=
  ⟨List.replicate 256 0, 32, 0⟩

/-- Little-endian bytes of a `u16`. -/
def le16 (n : Nat) : List Nat :=
  [n % 256, n / 256 % 256]

/-- `Bucket::_single_item_bucket`: tag 2, 3-byte key, 4-byte value. -/
def singleItemBucket (key value : List Nat) : List Nat :=
  [2] ++ resizeZero key 3 ++ resizeZero value 4

/-- `Bucket::_index_bucket`: tag 3, 3-byte key, then the first (up to) two
chain indices as little-endian `u16`.  `assert!(indexes.len() <= 2)`;
`indexes[0]` panics when the list is empty. -/
def indexBucket (key : List Nat) (indexes : List Nat) : Except String (List Nat) :=
  if indexes.length ≤ 2 then
    match indexes with
    | [] => Except.error "index 0 out of range"
    | [i0] => Except.ok ([3] ++ resizeZero key 3 ++ le16 i0 ++ [0, 0])
    | i0 :: i1 :: _ => Except.ok ([3] ++ resizeZero key 3 ++ le16 i0 ++ le16 i1)
  else Except.error "assert failed: Can only contain 2 indexes at max"

/-- `Bucket::_value_bucket`: tag byte (a `u8`, hence mod 256) then the
7-byte chunk. -/
def valueBucket (tag : Nat) (chunk : List Nat) : List Nat :=
  [tag % 256] ++ chunk

/-- The body of `Bucket::_split_value`'s `while start < len` loop, with an
iteration budget (`v.length` always suffices, since every iteration
consumes seven bytes). -/
def splitValueAux : Nat → List Nat → List (List Nat)
  | _, [] => []
  | 0, _ :: _ => []
  | fuel+1, v => resizeZero (v.take 7) 7 :: splitValueAux fuel (v.drop 7)

/-- `Bucket::_split_value`: cut the value into 7-byte chunks, the last one
zero-padded to 7 bytes. -/
def splitValue (v : List Nat) : List (List Nat) :=
  splitValueAux v.length v

/-- `HashTable::_write_at_index`: overwrite slot `index` with the 8-byte
bucket and increment `_no_of_taken`.  The slice write panics when the
offset range is out of bounds. -/
def writeAtIndex (t : HashTable) (bucket : List Nat) (index : Nat) :
    Except String HashTable :=
  let offset := index * 8
  if offset + 8 ≤ vecLen t.kvs then
    Except.ok ⟨writeSlice t.kvs offset bucket, t.size, t.no_of_taken + 1⟩
  else Except.error "slice out of bounds"

/-- `HashTable::_del_at_index`: zero slot `index` (all 8 bytes) and
decrement `_no_of_taken` (modelled with truncated subtraction; no run
considered here decrements past zero). -/
def delAtIndex (t : HashTable) (index : Nat) : Except String HashTable :=
  let offset := index * 8
  if offset + 8 ≤ vecLen t.kvs then
    Except.ok ⟨writeSlice t.kvs offset (List.replicate 8 0), t.size,
      t.no_of_taken - 1⟩
  else Except.error "slice out of bounds"

/-- `HashTable::_read_value_at_index`: the 7 payload bytes of slot `index`. -/
def readValueAtIndex (kvs : List Nat) (index : Nat) : Except String (List Nat) :=
  let offset := index * 8
  if offset + 8 ≤ vecLen kvs then Except.ok (readSlice kvs (offset + 1) 7)
  else Except.error "slice out of bounds"

/-- `bytes.windows(2)` as a list of pairs. -/
def windowPairs : List Nat → List (Nat × Nat)
  | a :: b :: rest => (a, b) :: windowPairs (b :: rest)
  | _ => []

/-- The chain-index decoding shared by `get` and `del` for tag-3 buckets:
over the five bytes `kvs[offset+3..offset+8]`, every 2-byte window whose
first byte is nonzero is read as a little-endian `u16` index. -/
def chainIndexes (bytes : List Nat) : List Nat :=
  (windowPairs bytes).filterMap fun p =>
    if p.1 ≠ 0 then some (p.1 + 256 * p.2) else none

/-- The fragment-collection loop of `get` for a chain: read the 7 payload
bytes at each decoded index and concatenate. -/
def readChain (kvs : List Nat) : List Nat → Except String (List Nat)
  | [] => Except.ok []
  | i :: rest => do
    let v ← readValueAtIndex kvs i
    let r ← readChain kvs rest
    Except.ok (v ++ r)

/-- The fragment loop of `del` for a chain: read the payload at each index,
zero that slot, and concatenate the payloads. -/
def delChain : List Nat → HashTable → Except String (HashTable × List Nat)
  | [], t => Except.ok (t, [])
  | i :: rest, t => do
    let v ← readValueAtIndex t.kvs i
    let t1 ← delAtIndex t i
    let p ← delChain rest t1
    Except.ok (p.1, v ++ p.2)

/-- The probe loop of `HashTable::del`: an empty slot means absence and
returns immediately; a tag-2 or tag-3 slot with matching trimmed key is
deleted (for tag 3, together with every slot its windows-decoded index
list points at) and the reconstructed trimmed value returned. -/
def delLoop (key : List Nat) : Nat → Nat → HashTable →
    Except String (HashTable × Option (List Nat))
  | 0, _, t => Except.ok (t, none)
  | fuel+1, index, t =>
    let offset := index * 8
    if offset + 8 ≤ vecLen t.kvs then
      if readSlice t.kvs offset 1 = [0] then Except.ok (t, none)
      else
        let tag := (readSlice t.kvs offset 1).headD 0
        let savedKey := trimZeros (readSlice t.kvs (offset + 1) 3)
        if tag = 2 ∧ savedKey = key then do
          let valueBytes := readSlice t.kvs (offset + 3) 5
          let t1 ← delAtIndex t index
          Except.ok (t1, some (trimZeros valueBytes))
        else if tag = 3 ∧ savedKey = key then do
          let indexBytes := readSlice t.kvs (offset + 3) 5
          let t1 ← delAtIndex t index
          let p ← delChain (chainIndexes indexBytes) t1
          Except.ok (p.1, some (trimZeros p.2))
        else delLoop key fuel ((index + 1) % t.size) t
    else Except.error "slice out of bounds"

/-- `HashTable::del`. -/
def del (t : HashTable) (key : List Nat) :
    Except String (HashTable × Option (List Nat)) :=
  delLoop key t.size (djb2 key % t.size) t

/-- The probe loop of `HashTable::get`: empty slots are skipped (probing
continues), a tag-2 match returns the 5 bytes at `offset+3..offset+8`
trimmed, a tag-3 match reconstructs the chain via `chainIndexes`; any
other slot lets probing continue.  An exhausted loop returns `None`. -/
def getLoop (key : List Nat) (t : HashTable) : Nat → Nat →
    Except String (Option (List Nat))
  | 0, _ => Except.ok none
  | fuel+1, index =>
    let offset := index * 8
    if offset + 8 ≤ vecLen t.kvs then
      if readSlice t.kvs offset 1 = [0] then
        getLoop key t fuel ((index + 1) % t.size)
      else
        let tag := (readSlice t.kvs offset 1).headD 0
        let savedKey := trimZeros (readSlice t.kvs (offset + 1) 3)
        if tag = 2 ∧ savedKey = key then
          Except.ok (some (trimZeros (readSlice t.kvs (offset + 3) 5)))
        else if tag = 3 ∧ savedKey = key then do
          let frags ← readChain t.kvs (chainIndexes (readSlice t.kvs (offset + 3) 5))
          Except.ok (some (trimZeros frags))
        else getLoop key t fuel ((index + 1) % t.size)
    else Except.error "slice out of bounds"

/-- `HashTable::get`. -/
def get (t : HashTable) (key : List Nat) : Except String (Option (List Nat)) :=
  getLoop key t t.size (djb2 key % t.size)

/-- `HashTable::_get_empty_indexes`: starting at `index` (already `+1` from
the head slot, unwrapped, hence the possible bounds-assert failure at slot
32), scan cyclically collecting slots whose first byte is zero until `n`
indices are found.  The source's `while` loop is unbounded; `fuel`
exhaustion models divergence. -/
def getEmptyIndexes (kvs : List Nat) (size : Nat) : Nat → Nat → Nat →
    Except String (List Nat)
  | _, 0, _ => Except.ok []
  | 0, _+1, _ => Except.error "unbounded scan does not terminate"
  | fuel+1, n+1, index =>
    let offset := index * 8
    if offset + 8 ≤ vecLen kvs then
      if readSlice kvs offset 1 = [0] then
        (getEmptyIndexes kvs size fuel n ((index + 1) % size)).map (index :: ·)
      else getEmptyIndexes kvs size fuel (n+1) ((index + 1) % size)
    else Except.error "assert failed: Index out of bounds"

/-- The probe loop of `HashTable::set`: break on the first empty slot, or
on a tag-2/tag-3 slot whose trimmed key matches (after running `del` on
the key, as the source does); an exhausted loop falls through with the
wrapped-around index.  Returns the (possibly `del`-mutated) table and the
break index. -/
def setLoop (key : List Nat) : Nat → Nat → HashTable →
    Except String (HashTable × Nat)
  | 0, index, t => Except.ok (t, index)
  | fuel+1, index, t =>
    let offset := index * 8
    if offset + 8 ≤ vecLen t.kvs then
      if readSlice t.kvs offset 1 = [0] then Except.ok (t, index)
      else
        let tag := (readSlice t.kvs offset 1).headD 0
        let savedKey := trimZeros (readSlice t.kvs (offset + 1) 3)
        if (tag = 2 ∨ tag = 3) ∧ savedKey = key then do
          let p ← del t key
          Except.ok (p.1, index)
        else setLoop key fuel ((index + 1) % t.size) t
    else Except.error "assert failed: Index out of bounds"

/-- The chunk-writing loop at the end of `HashTable::set`: chunk `i` is
written at `indexes[i]` with tag 1 when it is the last chunk and tag
`i + 4` otherwise. -/
def writeChunks (last : Nat) : Nat → List (List Nat) → List Nat → HashTable →
    Except String HashTable
  | _, [], _, t => Except.ok t
  | i, c :: cs, idx :: idxs, t => do
    let tag := if i = last then 1 else i + 4
    let t1 ← writeAtIndex t (valueBucket tag c) idx
    writeChunks last (i + 1) cs idxs t1
  | _, _ :: _, [], _ => Except.error "index out of range"

/-- `HashTable::set`: keys longer than 3 bytes make the function print to
stderr and return with the table untouched (`Except.ok t`: the caller sees
a normal return).  Values of at most 4 bytes become a single-item bucket at
the break index; longer values are split into 7-byte chunks, `chunks.len()`
empty slots are collected starting past the break index, and after the
`chunks.len() <= 2` assertion an index bucket plus the chunk buckets are
written. -/
def set (t : HashTable) (key value : List Nat) : Except String HashTable :=
  if 3 < key.length then Except.ok t
  else do
    let p ← setLoop key t.size (djb2 key % t.size) t
    let t1 := p.1
    let index := p.2
    if value.length ≤ 4 then
      writeAtIndex t1 (singleItemBucket key value) index
    else do
      let chunks := splitValue value
      let indexes ← getEmptyIndexes t1.kvs t1.size (vecLen t1.kvs)
        chunks.length (index + 1)
      if chunks.length ≤ 2 then do
        let ib ← indexBucket key indexes
        let t2 ← writeAtIndex t1 ib index
        if chunks.length = indexes.length then
          writeChunks (chunks.length - 1) 0 chunks indexes t2
        else Except.error "assert failed: chunks and indexes count does not match"
      else Except.error "assert failed: Value can only be parted into 2 chunks"

end HashBucket

namespace Hash

/-- One public operation of the `hash.rs` table. -/
inductive Op where
  | setK (key value : List Nat)
  | getK (key : List Nat)
  | delK (key : List Nat)

/-- Run one public operation; `none` is a panic.  `get` does not change the
state; its result is discarded here, but a panic inside it propagates. -/
def runOp (t : HashTable) : Op → Option HashTable
  | .setK k v => setOp t k v
  | .getK k => (get t k).map fun _ => t
  | .delK k => (delOp t k).map Prod.fst

/-- Run a sequence of public operations. -/
def runOps : List Op → HashTable → Option HashTable
  | [], t => some t
  | op :: rest, t => (runOp t op).bind (runOps rest)

/-- Structural well-formedness of a reachable table: positive capacity, a
buffer of exactly `128 * size` bytes, and a size-1 table is all zero
(a size-1 table only ever arises from a `compact` that re-inserted
nothing, because `set` on a size-1 table always extends it first). -/
def Wf (t : HashTable) : Prop :=
  0 < t.size ∧ t.kvs.length = 128 * t.size ∧
    (t.size = 1 → t.kvs = List.replicate 128 0)

/-- An in-limit `hash.rs` key: nonempty, at most 32 bytes, ASCII, and
neither starting nor ending with the zero padding byte (a key starting
with the padding byte is stored as an empty-looking slot, and a trailing
padding byte is destroyed by trimming — both documented constraints). -/
def ValidKey (k : List Nat) : Prop :=
  k ≠ [] ∧ k.head? ≠ some 0 ∧ k.getLast? ≠ some 0 ∧ k.length ≤ 32 ∧
    ∀ c ∈ k, c < 128

/-- An in-limit `hash.rs` value: at most 96 ASCII bytes, not ending with
the zero padding byte. -/
def ValidVal (v : List Nat) : Prop :=
  v.length ≤ 96 ∧ (v = [] ∨ v.getLast? ≠ some 0) ∧ ∀ c ∈ v, c < 128

/-- The home slot of a key. -/
def homeIdx (size : Nat) (k : List Nat) : Nat :=
  djb2 k % size

/-- Slot `i` of a buffer. -/
def slotAt (kvs : List Nat) (i : Nat) : List Nat :=
  readSlice kvs (i * 128) 128

/-- Whether slot `i` decodes as occupied (first byte nonzero). -/
def occB (kvs : List Nat) (i : Nat) : Bool :=
  (fromBytes (slotAt kvs i)).isSome

/-- Cyclic probe distance from `a` to `b` modulo `s` (for `a ≤ s`). -/
def cycD (s a b : Nat) : Nat :=
  (b + s - a) % s

/-- Record `pr` is stored at slot `p`: the slot holds its encoding and
every slot on the probe path from its home to `p` is occupied. -/
def Stored (size : Nat) (kvs : List Nat) (pr : List Nat × List Nat) (p : Nat) :
    Prop :=
  p < size ∧ slotAt kvs p = itemNew pr.1 pr.2 ∧
    ∀ j < cycD size (homeIdx size pr.1) p,
      occB kvs ((homeIdx size pr.1 + j) % size) = true

/-- The full representation invariant tying a table to the list `M` of the
logical records it holds: well-formed sizes, an accurate and
strictly-below-capacity occupancy count, valid pairwise-distinct keys, and
a duplicate-free list of positions storing the records of `M`, which are
exactly the occupied slots. -/
def Inv (t : HashTable) (M : List (List Nat × List Nat)) : Prop :=
  t.kvs.length = 128 * t.size ∧ 32 ≤ t.size ∧ t.no_of_taken = M.length ∧
  M.length < t.size ∧
  (∀ pr ∈ M, ValidKey pr.1 ∧ ValidVal pr.2) ∧
  (M.map Prod.fst).Nodup ∧
  ∃ P : List Nat, List.Forall₂ (Stored t.size t.kvs) M P ∧ P.Nodup ∧
    ∀ i < t.size, occB t.kvs i = true → i ∈ P

/-- Insert a list of pairs through the public put path. -/
def insertAll : List (List Nat × List Nat) → HashTable → Option HashTable
  | [], t => some t
  | pr :: rest, t => (setOp t pr.1 pr.2).bind (insertAll rest)

/-- Decode slot `i` into the logical (trimmed) record it stores, if any. -/
def decodeSlot (kvs : List Nat) (i : Nat) : Option (List Nat × List Nat) :=
  (fromBytes (slotAt kvs i)).map fun it => (trimZeros it.1, trimZeros it.2)

/-- The logical records of a table, read off slot by slot in index order —
exactly the records `extend`/`compact` re-insert. -/
def slotPairs (kvs : List Nat) (size : Nat) : List (List Nat × List Nat) :=
  (List.range size).filterMap (decodeSlot kvs)

/-- Fold a put function over a list of records (the re-insertion loop seen
at the level of logical records rather than slots). -/
def pairsFold (setFn : HashTable → List Nat → List Nat → Option HashTable) :
    List (List Nat × List Nat) → HashTable → Option HashTable
  | [], acc => some acc
  | pr :: rest, acc => (setFn acc pr.1 pr.2).bind (pairsFold setFn rest)

end Hash

namespace HashBucket

/-- `ceil(len / 7)`: the number of 7-byte fragments `_split_value` cuts a
nonempty value into. -/
def chunkCount (v : List Nat) : Nat :=
  (v.length + 6) / 7

end HashBucket

/-! ## General facts about the byte-buffer primitives -/

theorem lenAux_eq : ∀ (l : List Nat) (n : Nat), lenAux l n = l.length + n
  | [], n => by simp [lenAux]
  | _ :: l, n => by
    simp only [lenAux, List.length_cons, lenAux_eq l]
    omega

theorem vecLen_eq (l : List Nat) : vecLen l = l.length := by
  simp [vecLen, lenAux_eq]


theorem length_writeSlice (l b : List Nat) (off : Nat)
    (h : off + b.length ≤ l.length) :
    (writeSlice l off b).length = l.length := by
  simp only [writeSlice, List.length_append, List.length_take, List.length_drop]
  omega

theorem length_readSlice (l : List Nat) (off n : Nat)
    (h : off + n ≤ l.length) :
    (readSlice l off n).length = n := by
  simp only [readSlice, List.length_take, List.length_drop]
  omega

theorem readSlice_replicate (n off k : Nat) (h : off + k ≤ n) :
    readSlice (List.replicate n (0 : Nat)) off k = List.replicate k 0 := by
  simp only [readSlice, List.drop_replicate, List.take_replicate]
  congr 1
  omega

theorem readSlice_writeSlice_self (l b : List Nat) (off : Nat)
    (h : off + b.length ≤ l.length) :
    readSlice (writeSlice l off b) off b.length = b := by
  have hoff : off ≤ l.length := by omega
  have h1 : (l.take off).length = off := by
    simp only [List.length_take]
    omega
  simp only [readSlice, writeSlice, List.append_assoc]
  rw [List.drop_append_of_le_length (by omega), List.drop_take, Nat.sub_self,
    List.take_zero, List.nil_append,
    List.take_append_of_le_length (le_refl _), List.take_length]

theorem readSlice_writeSlice_left (l b : List Nat) (off off2 k : Nat)
    (hb : off ≤ l.length) (h : off2 + k ≤ off) :
    readSlice (writeSlice l off b) off2 k = readSlice l off2 k := by
  have h1 : (l.take off).length = off := by
    simp only [List.length_take]
    omega
  simp only [readSlice, writeSlice, List.append_assoc]
  rw [List.drop_append_of_le_length (by omega),
    List.take_append_of_le_length (by simp only [List.length_drop, h1]; omega),
    List.drop_take]
  have h2 : k ⊓ (off - off2) = k := by omega
  rw [List.take_take, h2]

theorem readSlice_writeSlice_right (l b : List Nat) (off off2 k : Nat)
    (hb : off ≤ l.length) (h : off + b.length ≤ off2) :
    readSlice (writeSlice l off b) off2 k = readSlice l off2 k := by
  have h1 : (l.take off ++ b).length = off + b.length := by
    simp only [List.length_append, List.length_take]
    omega
  simp only [readSlice, writeSlice]
  rw [show l.take off ++ b ++ l.drop (off + b.length) =
      (l.take off ++ b) ++ l.drop (off + b.length) from rfl]
  rw [show off2 = (l.take off ++ b).length + (off2 - (off + b.length)) by omega,
    List.drop_append, List.drop_drop]
  congr 2
  omega

namespace Hash


theorem set_succ_eq (d : Nat) (t : HashTable) (key value : List Nat) :
    set (d+1) t key value =
      if load_factor t.size ≤ t.no_of_taken then
        (extend d t).bind fun t1 => insertStep t1 key value
      else insertStep t key value := rfl

end Hash

/-! ## Padding, trimming and decoding -/

theorem length_resizeZero (l : List Nat) (n : Nat) :
    (resizeZero l n).length = n := by
  simp only [resizeZero, List.length_append, List.length_take,
    List.length_replicate]
  omega

theorem resizeZero_of_le (l : List Nat) (n : Nat) (h : l.length ≤ n) :
    resizeZero l n = l ++ List.replicate (n - l.length) 0 := by
  simp [resizeZero, List.take_of_length_le h]

theorem trimZeros_append_replicate (l : List Nat) (m : Nat) :
    trimZeros (l ++ List.replicate m 0) = trimZeros l := by
  simp only [trimZeros, List.reverse_append, List.reverse_replicate]
  rw [List.dropWhile_append, List.dropWhile_replicate]
  simp

theorem trimZeros_eq_self (l : List Nat) (h : l.getLast? ≠ some 0) :
    trimZeros l = l := by
  unfold trimZeros
  cases hr : l.reverse with
  | nil => simpa using congrArg List.reverse hr
  | cons a r =>
    have ha : l.reverse.head? = some a := by rw [hr]; rfl
    rw [List.head?_reverse] at ha
    have hane : a ≠ 0 := fun h0 => h (h0 ▸ ha)
    rw [List.dropWhile_cons, if_neg (by simpa using hane), ← hr,
      List.reverse_reverse]

theorem trimZeros_resizeZero (l : List Nat) (n : Nat) (hlen : l.length ≤ n)
    (hlast : l.getLast? ≠ some 0) :
    trimZeros (resizeZero l n) = l := by
  rw [resizeZero_of_le l n hlen, trimZeros_append_replicate,
    trimZeros_eq_self l hlast]

theorem trimZeros_nil : trimZeros [] = [] := rfl

theorem trimZeros_replicate (m : Nat) :
    trimZeros (List.replicate m 0) = [] := by
  have := trimZeros_append_replicate [] m
  simpa using this

namespace Hash

theorem fromBytes_replicate : fromBytes (List.replicate 128 0) = none := by
  simp [fromBytes, List.head?_replicate]

theorem itemNew_length (k v : List Nat) : (itemNew k v).length = 128 := by
  simp [itemNew, length_resizeZero]

theorem fromBytes_itemNew (k v : List Nat) (hk : k.head? ≠ some 0)
    (hne : k ≠ []) :
    fromBytes (itemNew k v) = some (resizeZero k 32, resizeZero v 96) := by
  have h32 : (resizeZero k 32).length = 32 := length_resizeZero k 32
  have hrne : resizeZero k 32 ≠ [] := by
    intro h
    rw [h] at h32
    simp at h32
  have hhead : (itemNew k v).head? = k.head? := by
    rw [itemNew, List.head?_append_of_ne_nil _ hrne]
    unfold resizeZero
    cases k with
    | nil => exact absurd rfl hne
    | cons a l => rfl
  have htake : (itemNew k v).take 32 = resizeZero k 32 := by
    rw [itemNew, List.take_left' h32]
  have hdrop : (itemNew k v).drop 32 = resizeZero v 96 := by
    rw [itemNew, List.drop_left' h32]
  unfold fromBytes
  rw [hhead, htake, hdrop]
  simp [hk]

theorem fromBytes_itemNew_valid (k v : List Nat) (hk : ValidKey k) :
    fromBytes (itemNew k v) = some (resizeZero k 32, resizeZero v 96) :=
  fromBytes_itemNew k v hk.2.1 hk.1

/-- Decoding then trimming an encoded valid record recovers the record. -/
theorem trim_itemNew_key (k : List Nat) (hk : ValidKey k) :
    trimZeros (resizeZero k 32) = k :=
  trimZeros_resizeZero k 32 hk.2.2.2.1 hk.2.2.1

theorem trim_itemNew_val (v : List Nat) (hv : ValidVal v) :
    trimZeros (resizeZero v 96) = v := by
  rcases hv.2.1 with h | h
  · subst h
    have hrep : resizeZero [] 96 = List.replicate 96 0 := by
      simp [resizeZero]
    rw [hrep, trimZeros_replicate]
  · exact trimZeros_resizeZero v 96 hv.1 h

end Hash

/-! ## Cyclic probe distance -/

theorem cycD_lt (s a b : Nat) (hs : 0 < s) : Hash.cycD s a b < s :=
  Nat.mod_lt _ hs

theorem add_cycD (s a b : Nat) (ha : a ≤ s) (hb : b < s) :
    (a + Hash.cycD s a b) % s = b := by
  have hs : 0 < s := Nat.lt_of_le_of_lt (Nat.zero_le b) hb
  unfold Hash.cycD
  rw [Nat.add_mod, Nat.mod_mod_of_dvd _ (dvd_refl s), ← Nat.add_mod]
  have h1 : a + (b + s - a) = b + s := by omega
  rw [h1, Nat.add_mod_right, Nat.mod_eq_of_lt hb]

theorem cycD_of_add (s a j : Nat) (ha : a < s) (hj : j < s) :
    Hash.cycD s a ((a + j) % s) = j := by
  unfold Hash.cycD
  rcases Nat.lt_or_ge (a + j) s with h | h
  · rw [Nat.mod_eq_of_lt h]
    have h1 : a + j + s - a = j + s := by omega
    rw [h1, Nat.add_mod_right, Nat.mod_eq_of_lt hj]
  · have h2 : (a + j) % s = a + j - s := by
      have : a + j - s < s := by omega
      rw [Nat.mod_eq_sub_mod h, Nat.mod_eq_of_lt this]
    rw [h2]
    have h3 : a + j - s + s - a = j := by omega
    rw [h3, Nat.mod_eq_of_lt hj]

theorem cycD_zero (s a : Nat) (ha : a < s) : Hash.cycD s a a = 0 := by
  have := cycD_of_add s a 0 ha (Nat.lt_of_le_of_lt (Nat.zero_le a) ha)
  simpa [Nat.mod_eq_of_lt ha] using this

namespace Hash

/-! ## One-step characterizations of the probe loops -/

theorem setLoop_succ (key bucket kvs : List Nat) (size fuel index taken : Nat) :
    setLoop key bucket size (fuel+1) index kvs taken =
      if index * 128 + 128 ≤ kvs.length then
        match fromBytes (readSlice kvs (index * 128) 128) with
        | some item =>
          if trimZeros item.1 = key then
            some (writeSlice kvs (index * 128) bucket, taken)
          else setLoop key bucket size fuel ((index + 1) % size) kvs taken
        | none => some (writeSlice kvs (index * 128) bucket, taken + 1)
      else none := by
  simp only [setLoop, vecLen_eq]

theorem getLoop_succ (key kvs : List Nat) (size fuel index : Nat) :
    getLoop key size kvs (fuel+1) index =
      if index * 128 + 128 ≤ kvs.length then
        match fromBytes (readSlice kvs (index * 128) 128) with
        | some item =>
          if trimZeros item.1 = key then some (some (trimZeros item.2))
          else getLoop key size kvs fuel ((index + 1) % size)
        | none => some none
      else none := by
  simp only [getLoop, vecLen_eq]

theorem delLoop_succ (d : Nat) (key kvs : List Nat) (size fuel index taken : Nat) :
    delLoop d key size (fuel+1) index kvs taken =
      if index * 128 + 128 ≤ kvs.length then
        match fromBytes (readSlice kvs (index * 128) 128) with
        | some item =>
          if trimZeros item.1 = key then
            let kvs1 := writeSlice kvs (index * 128) (List.replicate 128 0)
            let taken1 := if 0 < taken then taken - 1 else taken
            if taken1 ≤ compactThreshold size then
              (compact d ⟨kvs1, size, taken1⟩).map
                fun t2 => (t2, some (trimZeros item.2))
            else some (⟨kvs1, size, taken1⟩, some (trimZeros item.2))
          else delLoop d key size fuel ((index + 1) % size) kvs taken
        | none => some (⟨kvs, size, taken⟩, none)
      else none := by
  simp only [delLoop, vecLen_eq]

theorem reinsertWith_cons (setFn : HashTable → List Nat → List Nat → Option HashTable)
    (oldKvs : List Nat) (i : Nat) (rest : List Nat) (acc : HashTable) :
    reinsertWith setFn oldKvs (i :: rest) acc =
      if i * 128 + 128 ≤ oldKvs.length then
        match fromBytes (readSlice oldKvs (i * 128) 128) with
        | some item =>
          (setFn acc (trimZeros item.1) (trimZeros item.2)).bind
            (reinsertWith setFn oldKvs rest)
        | none => reinsertWith setFn oldKvs rest acc
      else none := by
  simp only [reinsertWith, vecLen_eq]

/-! ## Branch lemmas for the probe loops -/

theorem setLoop_none (key bucket kvs : List Nat) (size fuel index taken : Nat)
    (hoff : index * 128 + 128 ≤ kvs.length)
    (hfb : fromBytes (readSlice kvs (index * 128) 128) = none) :
    setLoop key bucket size (fuel+1) index kvs taken =
      some (writeSlice kvs (index * 128) bucket, taken + 1) := by
  rw [setLoop_succ, if_pos hoff, hfb]

theorem setLoop_some (key bucket kvs : List Nat) (size fuel index taken : Nat)
    (item : List Nat × List Nat)
    (hoff : index * 128 + 128 ≤ kvs.length)
    (hfb : fromBytes (readSlice kvs (index * 128) 128) = some item) :
    setLoop key bucket size (fuel+1) index kvs taken =
      if trimZeros item.1 = key then
        some (writeSlice kvs (index * 128) bucket, taken)
      else setLoop key bucket size fuel ((index + 1) % size) kvs taken := by
  rw [setLoop_succ, if_pos hoff, hfb]

theorem getLoop_none (key kvs : List Nat) (size fuel index : Nat)
    (hoff : index * 128 + 128 ≤ kvs.length)
    (hfb : fromBytes (readSlice kvs (index * 128) 128) = none) :
    getLoop key size kvs (fuel+1) index = some none := by
  rw [getLoop_succ, if_pos hoff, hfb]

theorem getLoop_some (key kvs : List Nat) (size fuel index : Nat)
    (item : List Nat × List Nat)
    (hoff : index * 128 + 128 ≤ kvs.length)
    (hfb : fromBytes (readSlice kvs (index * 128) 128) = some item) :
    getLoop key size kvs (fuel+1) index =
      if trimZeros item.1 = key then some (some (trimZeros item.2))
      else getLoop key size kvs fuel ((index + 1) % size) := by
  rw [getLoop_succ, if_pos hoff, hfb]

theorem delLoop_none (d : Nat) (key kvs : List Nat) (size fuel index taken : Nat)
    (hoff : index * 128 + 128 ≤ kvs.length)
    (hfb : fromBytes (readSlice kvs (index * 128) 128) = none) :
    delLoop d key size (fuel+1) index kvs taken =
      some (⟨kvs, size, taken⟩, none) := by
  rw [delLoop_succ, if_pos hoff, hfb]

theorem delLoop_some (d : Nat) (key kvs : List Nat) (size fuel index taken : Nat)
    (item : List Nat × List Nat)
    (hoff : index * 128 + 128 ≤ kvs.length)
    (hfb : fromBytes (readSlice kvs (index * 128) 128) = some item) :
    delLoop d key size (fuel+1) index kvs taken =
      if trimZeros item.1 = key then
        let kvs1 := writeSlice kvs (index * 128) (List.replicate 128 0)
        let taken1 := if 0 < taken then taken - 1 else taken
        if taken1 ≤ compactThreshold size then
          (compact d ⟨kvs1, size, taken1⟩).map
            fun t2 => (t2, some (trimZeros item.2))
        else some (⟨kvs1, size, taken1⟩, some (trimZeros item.2))
      else delLoop d key size fuel ((index + 1) % size) kvs taken := by
  rw [delLoop_succ, if_pos hoff, hfb]

theorem reinsertWith_some (setFn : HashTable → List Nat → List Nat → Option HashTable)
    (oldKvs : List Nat) (i : Nat) (rest : List Nat) (acc : HashTable)
    (item : List Nat × List Nat)
    (hoff : i * 128 + 128 ≤ oldKvs.length)
    (hfb : fromBytes (readSlice oldKvs (i * 128) 128) = some item) :
    reinsertWith setFn oldKvs (i :: rest) acc =
      (setFn acc (trimZeros item.1) (trimZeros item.2)).bind
        (reinsertWith setFn oldKvs rest) := by
  rw [reinsertWith_cons, if_pos hoff, hfb]

theorem reinsertWith_skip (setFn : HashTable → List Nat → List Nat → Option HashTable)
    (oldKvs : List Nat) (i : Nat) (rest : List Nat) (acc : HashTable)
    (hoff : i * 128 + 128 ≤ oldKvs.length)
    (hfb : fromBytes (readSlice oldKvs (i * 128) 128) = none) :
    reinsertWith setFn oldKvs (i :: rest) acc =
      reinsertWith setFn oldKvs rest acc := by
  rw [reinsertWith_cons, if_pos hoff, hfb]

/-! ## Totality of the probe loops on well-formed buffers -/

theorem setLoop_total (key bucket : List Nat) (size : Nat)
    (hb : bucket.length = 128) :
    ∀ (fuel index : Nat) (kvs : List Nat) (taken : Nat),
      kvs.length = 128 * size → index < size →
      ∃ kvs2 taken2,
        setLoop key bucket size fuel index kvs taken = some (kvs2, taken2) ∧
          kvs2.length = kvs.length ∧
          (taken2 = taken ∨ taken2 = taken + 1)
  | 0, index, kvs, taken, hlen, hidx => ⟨kvs, taken, rfl, rfl, Or.inl rfl⟩
  | fuel+1, index, kvs, taken, hlen, hidx => by
    have hoff : index * 128 + 128 ≤ kvs.length := by
      rw [hlen]; omega
    cases hfb : fromBytes (readSlice kvs (index * 128) 128) with
    | none =>
      rw [setLoop_none key bucket kvs size fuel index taken hoff hfb]
      refine ⟨writeSlice kvs (index * 128) bucket, taken + 1, rfl, ?_, Or.inr rfl⟩
      exact length_writeSlice kvs bucket _ (by rw [hb]; exact hoff)
    | some item =>
      rw [setLoop_some key bucket kvs size fuel index taken item hoff hfb]
      by_cases hk : trimZeros item.1 = key
      · rw [if_pos hk]
        refine ⟨writeSlice kvs (index * 128) bucket, taken, rfl, ?_, Or.inl rfl⟩
        exact length_writeSlice kvs bucket _ (by rw [hb]; exact hoff)
      · rw [if_neg hk]
        exact setLoop_total key bucket size hb fuel ((index + 1) % size) kvs taken
          hlen (Nat.mod_lt _ (Nat.lt_of_le_of_lt (Nat.zero_le _) hidx))

theorem insertStep_total (t : HashTable) (key value : List Nat)
    (hlen : t.kvs.length = 128 * t.size) (hpos : 0 < t.size) :
    ∃ t2, insertStep t key value = some t2 ∧ t2.size = t.size ∧
      t2.kvs.length = t.kvs.length ∧
      (t2.no_of_taken = t.no_of_taken ∨ t2.no_of_taken = t.no_of_taken + 1) := by
  obtain ⟨kvs2, taken2, hrun, hl, ht⟩ :=
    setLoop_total key (itemNew key value) t.size (itemNew_length key value)
      t.size (djb2 key % t.size) t.kvs t.no_of_taken hlen
      (Nat.mod_lt _ hpos)
  refine ⟨⟨kvs2, t.size, taken2⟩, ?_, rfl, hl, ht⟩
  unfold insertStep
  rw [if_neg (Nat.pos_iff_ne_zero.mp hpos), hrun]
  rfl

theorem getLoop_total (key : List Nat) (size : Nat) :
    ∀ (fuel index : Nat) (kvs : List Nat),
      kvs.length = 128 * size → index < size →
      ∃ r, getLoop key size kvs fuel index = some r
  | 0, index, kvs, hlen, hidx => ⟨none, rfl⟩
  | fuel+1, index, kvs, hlen, hidx => by
    have hoff : index * 128 + 128 ≤ kvs.length := by
      rw [hlen]; omega
    cases hfb : fromBytes (readSlice kvs (index * 128) 128) with
    | none =>
      rw [getLoop_none key kvs size fuel index hoff hfb]
      exact ⟨none, rfl⟩
    | some item =>
      rw [getLoop_some key kvs size fuel index item hoff hfb]
      by_cases hk : trimZeros item.1 = key
      · rw [if_pos hk]
        exact ⟨some (trimZeros item.2), rfl⟩
      · rw [if_neg hk]
        exact getLoop_total key size fuel ((index + 1) % size) kvs hlen
          (Nat.mod_lt _ (Nat.lt_of_le_of_lt (Nat.zero_le _) hidx))

theorem get_total (t : HashTable) (key : List Nat)
    (hlen : t.kvs.length = 128 * t.size) (hpos : 0 < t.size) :
    ∃ r, get t key = some r := by
  unfold get
  rw [if_neg (Nat.pos_iff_ne_zero.mp hpos)]
  exact getLoop_total key t.size t.size (djb2 key % t.size) t.kvs hlen
    (Nat.mod_lt _ hpos)

end Hash

namespace Hash

/-! ## Totality and well-formedness of the public operations (rebuilds included) -/

theorem set_zero_total (t : HashTable) (key value : List Nat)
    (hlen : t.kvs.length = 128 * t.size) (hpos : 0 < t.size)
    (hlf : t.no_of_taken < load_factor t.size) :
    ∃ t2, set 0 t key value = some t2 ∧ t2.size = t.size ∧
      t2.kvs.length = t.kvs.length ∧
      (t2.no_of_taken = t.no_of_taken ∨ t2.no_of_taken = t.no_of_taken + 1) := by
  obtain ⟨t2, h, hs, hl, ht⟩ := insertStep_total t key value hlen hpos
  refine ⟨t2, ?_, hs, hl, ht⟩
  show (if load_factor t.size ≤ t.no_of_taken then none else insertStep t key value)
    = some t2
  rw [if_neg (Nat.not_le.mpr hlf), h]

/-- Re-insertion with the depth-0 `set` never hits the load-factor branch as
long as the records still to insert fit under the load factor. -/
theorem reinsert_set0_total (oldKvs : List Nat) :
    ∀ (idxs : List Nat) (acc : HashTable),
      (∀ i ∈ idxs, i * 128 + 128 ≤ oldKvs.length) →
      acc.kvs.length = 128 * acc.size → 0 < acc.size →
      acc.no_of_taken + idxs.length ≤ load_factor acc.size →
      ∃ acc2, reinsertWith (set 0) oldKvs idxs acc = some acc2 ∧
        acc2.size = acc.size ∧ acc2.kvs.length = acc.kvs.length ∧
        acc2.no_of_taken ≤ acc.no_of_taken + idxs.length
  | [], acc, _, _, _, _ => ⟨acc, rfl, rfl, rfl, Nat.le_refl _⟩
  | i :: rest, acc, hold, hlen, hpos, hbound => by
    have hoff : i * 128 + 128 ≤ oldKvs.length := hold i (List.mem_cons_self i rest)
    have hrest : ∀ j ∈ rest, j * 128 + 128 ≤ oldKvs.length :=
      fun j hj => hold j (List.mem_cons_of_mem i hj)
    cases hfb : fromBytes (readSlice oldKvs (i * 128) 128) with
    | none =>
      rw [reinsertWith_skip _ _ _ _ _ hoff hfb]
      obtain ⟨acc2, hrun, hs, hl, ht⟩ :=
        reinsert_set0_total oldKvs rest acc hrest hlen hpos
          (by simp only [List.length_cons] at hbound; omega)
      exact ⟨acc2, hrun, hs, hl,
        Nat.le_trans ht (by simp only [List.length_cons]; omega)⟩
    | some item =>
      rw [reinsertWith_some _ _ _ _ _ item hoff hfb]
      have hlf : acc.no_of_taken < load_factor acc.size := by
        simp only [List.length_cons] at hbound
        omega
      obtain ⟨acc1, hrun1, hs1, hl1, ht1⟩ :=
        set_zero_total acc (trimZeros item.1) (trimZeros item.2) hlen hpos hlf
      rw [hrun1]
      obtain ⟨acc2, hrun2, hs2, hl2, ht2⟩ :=
        reinsert_set0_total oldKvs rest acc1 hrest (by rw [hl1, hs1]; exact hlen)
          (by rw [hs1]; exact hpos)
          (by
            rw [hs1]
            simp only [List.length_cons] at hbound
            rcases ht1 with h | h <;> omega)
      refine ⟨acc2, hrun2, by rw [hs2, hs1], by rw [hl2, hl1], ?_⟩
      simp only [List.length_cons]
      rcases ht1 with h | h <;> omega

theorem extend_zero_total (t : HashTable)
    (hlen : t.kvs.length = 128 * t.size) (hpos : 0 < t.size) :
    ∃ t2, extend 0 t = some t2 ∧ t2.size = t.size * 2 ∧
      t2.kvs.length = 128 * t2.size ∧ t2.no_of_taken ≤ t.size := by
  have hfls : (List.replicate (t.size * 2 * 128) (0 : Nat)).length =
      128 * (t.size * 2) := by
    simp only [List.length_replicate]
    omega
  obtain ⟨t2, hrun, hs, hl, ht⟩ :=
    reinsert_set0_total t.kvs (List.range t.size)
      ⟨List.replicate (t.size * 2 * 128) 0, t.size * 2, 0⟩
      (fun i hi => by
        have : i < t.size := List.mem_range.mp hi
        rw [hlen]; omega)
      hfls (by show 0 < t.size * 2; omega)
      (by
        show 0 + (List.range t.size).length ≤ load_factor (t.size * 2)
        simp only [List.length_range, load_factor]
        omega)
  refine ⟨t2, hrun, hs, ?_, ?_⟩
  · rw [hl, hs]
    exact hfls
  · simpa using ht

theorem set_one_wf (t : HashTable) (key value : List Nat) (hwf : Wf t) :
    ∃ t2, set 1 t key value = some t2 ∧ Wf t2 := by
  obtain ⟨hpos, hlen, hone⟩ := hwf
  rw [set_succ_eq]
  by_cases hlf : load_factor t.size ≤ t.no_of_taken
  · rw [if_pos hlf]
    obtain ⟨te, hrun, hs, hl, _⟩ := extend_zero_total t hlen hpos
    rw [hrun]
    obtain ⟨t2, hrun2, hs2, hl2, _⟩ :=
      insertStep_total te key value hl (by omega)
    refine ⟨t2, by rw [Option.some_bind, hrun2], ?_⟩
    refine ⟨by omega, by rw [hl2, hs2, hl, hs], fun h1 => absurd (hs2.trans hs) (by omega)⟩
  · rw [if_neg hlf]
    obtain ⟨t2, hrun2, hs2, hl2, _⟩ := insertStep_total t key value hlen hpos
    refine ⟨t2, hrun2, by omega, by rw [hl2, hs2]; exact hlen, fun h1 => ?_⟩
    exfalso
    have : t.size = 1 := by omega
    apply hlf
    rw [this]
    simp [load_factor]

theorem reinsert_set1_wf (oldKvs : List Nat) :
    ∀ (idxs : List Nat) (acc : HashTable),
      (∀ i ∈ idxs, i * 128 + 128 ≤ oldKvs.length) → Wf acc →
      ∃ acc2, reinsertWith (set 1) oldKvs idxs acc = some acc2 ∧ Wf acc2
  | [], acc, _, hwf => ⟨acc, rfl, hwf⟩
  | i :: rest, acc, hold, hwf => by
    have hoff : i * 128 + 128 ≤ oldKvs.length := hold i (List.mem_cons_self i rest)
    have hrest : ∀ j ∈ rest, j * 128 + 128 ≤ oldKvs.length :=
      fun j hj => hold j (List.mem_cons_of_mem i hj)
    cases hfb : fromBytes (readSlice oldKvs (i * 128) 128) with
    | none =>
      rw [reinsertWith_skip _ _ _ _ _ hoff hfb]
      exact reinsert_set1_wf oldKvs rest acc hrest hwf
    | some item =>
      rw [reinsertWith_some _ _ _ _ _ item hoff hfb]
      obtain ⟨acc1, hrun1, hwf1⟩ :=
        set_one_wf acc (trimZeros item.1) (trimZeros item.2) hwf
      rw [hrun1]
      exact reinsert_set1_wf oldKvs rest acc1 hrest hwf1

theorem delLoop_one_wf (key : List Nat) (size : Nat) :
    ∀ (fuel index : Nat) (kvs : List Nat) (taken : Nat),
      kvs.length = 128 * size → index < size →
      (size = 1 → kvs = List.replicate 128 0) →
      ∃ t2 r, delLoop 1 key size fuel index kvs taken = some (t2, r) ∧ Wf t2
  | 0, index, kvs, taken, hlen, hidx, hone =>
    ⟨⟨kvs, size, taken⟩, none, rfl,
      Nat.lt_of_le_of_lt (Nat.zero_le _) hidx, hlen, hone⟩
  | fuel+1, index, kvs, taken, hlen, hidx, hone => by
    have hpos : 0 < size := Nat.lt_of_le_of_lt (Nat.zero_le _) hidx
    have hoff : index * 128 + 128 ≤ kvs.length := by rw [hlen]; omega
    cases hfb : fromBytes (readSlice kvs (index * 128) 128) with
    | none =>
      rw [delLoop_none _ _ _ _ _ _ _ hoff hfb]
      exact ⟨⟨kvs, size, taken⟩, none, rfl, hpos, hlen, hone⟩
    | some item =>
      rw [delLoop_some _ _ _ _ _ _ _ item hoff hfb]
      by_cases hk : trimZeros item.1 = key
      · rw [if_pos hk]
        have hs2 : 2 ≤ size := by
          rcases Nat.lt_or_ge size 2 with h | h
          · exfalso
            have h1 : size = 1 := by omega
            have hz := hone h1
            subst h1
            have : index = 0 := by omega
            subst this
            rw [hz] at hfb
            have : readSlice (List.replicate 128 (0 : Nat)) (0 * 128) 128 =
                List.replicate 128 0 := by
              apply readSlice_replicate
              omega
            rw [this, fromBytes_replicate] at hfb
            exact Option.noConfusion hfb
          · exact h
        have hlen1 : (writeSlice kvs (index * 128) (List.replicate 128 0)).length
            = 128 * size := by
          rw [length_writeSlice]
          · exact hlen
          · simp only [List.length_replicate]
            exact hoff
        by_cases hcomp :
            (if 0 < taken then taken - 1 else taken) ≤ compactThreshold size
        · rw [if_pos hcomp]
          have hfwf : Wf ⟨List.replicate (size / 2 * 128) 0, size / 2, 0⟩ := by
            refine ⟨?_, ?_, ?_⟩
            · show 0 < size / 2
              omega
            · show (List.replicate (size / 2 * 128) (0 : Nat)).length =
                128 * (size / 2)
              rw [List.length_replicate]
              omega
            · intro h1
              have h2 : size / 2 = 1 := h1
              show List.replicate (size / 2 * 128) (0 : Nat) = List.replicate 128 0
              rw [h2]
          obtain ⟨t2, hrun2, hwf2⟩ :=
            reinsert_set1_wf (writeSlice kvs (index * 128) (List.replicate 128 0))
              (List.range size)
              ⟨List.replicate (size / 2 * 128) 0, size / 2, 0⟩
              (fun i hi => by
                have : i < size := List.mem_range.mp hi
                rw [hlen1]; omega)
              hfwf
          refine ⟨t2, some (trimZeros item.2), ?_, hwf2⟩
          show (compact 1 _).map _ = _
          unfold compact
          rw [hrun2]
          rfl
        · rw [if_neg hcomp]
          refine ⟨_, some (trimZeros item.2), rfl, ?_, hlen1, ?_⟩
          · show 0 < size
            omega
          · intro h1
            exact absurd (show size = 1 from h1) (by omega)
      · rw [if_neg hk]
        exact delLoop_one_wf key size fuel ((index + 1) % size) kvs taken hlen
          (Nat.mod_lt _ hpos) hone

theorem del_one_wf (t : HashTable) (key : List Nat) (hwf : Wf t) :
    ∃ t2 r, del 1 t key = some (t2, r) ∧ Wf t2 := by
  obtain ⟨hpos, hlen, hone⟩ := hwf
  unfold del
  rw [if_neg (Nat.pos_iff_ne_zero.mp hpos)]
  exact delLoop_one_wf key t.size t.size (djb2 key % t.size) t.kvs t.no_of_taken
    hlen (Nat.mod_lt _ hpos) hone

theorem runOp_wf (t : HashTable) (op : Op) (hwf : Wf t) :
    ∃ t2, runOp t op = some t2 ∧ Wf t2 := by
  cases op with
  | setK k v =>
    obtain ⟨t2, h, hwf2⟩ := set_one_wf t k v hwf
    exact ⟨t2, h, hwf2⟩
  | getK k =>
    obtain ⟨r, h⟩ := get_total t k hwf.2.1 hwf.1
    refine ⟨t, ?_, hwf⟩
    show (get t k).map _ = _
    rw [h]
    rfl
  | delK k =>
    obtain ⟨t2, r, h, hwf2⟩ := del_one_wf t k hwf
    refine ⟨t2, ?_, hwf2⟩
    show (del 1 t k).map Prod.fst = _
    rw [h]
    rfl

theorem runOps_wf : ∀ (ops : List Op) (t : HashTable), Wf t →
    ∃ t2, runOps ops t = some t2 ∧ Wf t2
  | [], t, hwf => ⟨t, rfl, hwf⟩
  | op :: rest, t, hwf => by
    obtain ⟨t1, h1, hwf1⟩ := runOp_wf t op hwf
    obtain ⟨t2, h2, hwf2⟩ := runOps_wf rest t1 hwf1
    refine ⟨t2, ?_, hwf2⟩
    show (runOp t op).bind (runOps rest) = some t2
    rw [h1, Option.some_bind, h2]

theorem wf_new : Wf new := by
  refine ⟨?_, ?_, ?_⟩
  · show 0 < 32
    omega
  · show (List.replicate 4096 (0 : Nat)).length = 128 * 32
    rw [List.length_replicate]
  · intro h
    exact absurd (show (32 : Nat) = 1 from h) (by omega)

end Hash

namespace Hash

/-! ## Slot-level views of buffer writes -/

theorem slotAt_write_self (kvs b : List Nat) (p : Nat) (hb : b.length = 128)
    (hp : p * 128 + 128 ≤ kvs.length) :
    slotAt (writeSlice kvs (p * 128) b) p = b := by
  have h := readSlice_writeSlice_self kvs b (p * 128) (by rw [hb]; exact hp)
  rw [hb] at h
  exact h

theorem slotAt_write_other (kvs b : List Nat) (p i : Nat) (hb : b.length = 128)
    (hp : p * 128 + 128 ≤ kvs.length) (hne : i ≠ p) :
    slotAt (writeSlice kvs (p * 128) b) i = slotAt kvs i := by
  unfold slotAt
  rcases Nat.lt_or_ge i p with h | h
  · exact readSlice_writeSlice_left kvs b (p * 128) (i * 128) 128
      (by omega) (by omega)
  · have hgt : p < i := by omega
    exact readSlice_writeSlice_right kvs b (p * 128) (i * 128) 128
      (by omega) (by rw [hb]; omega)

theorem occB_iff_some (kvs : List Nat) (i : Nat) :
    occB kvs i = true ↔ ∃ item, fromBytes (slotAt kvs i) = some item := by
  unfold occB
  cases fromBytes (slotAt kvs i) <;> simp

theorem occB_write_other (kvs b : List Nat) (p i : Nat) (hb : b.length = 128)
    (hp : p * 128 + 128 ≤ kvs.length) (hne : i ≠ p) :
    occB (writeSlice kvs (p * 128) b) i = occB kvs i := by
  unfold occB
  rw [slotAt_write_other kvs b p i hb hp hne]

theorem occB_write_self (kvs b : List Nat) (p : Nat) (hb : b.length = 128)
    (hp : p * 128 + 128 ≤ kvs.length) :
    occB (writeSlice kvs (p * 128) b) p = (fromBytes b).isSome := by
  unfold occB
  rw [slotAt_write_self kvs b p hb hp]

theorem occB_write_mono (kvs b : List Nat) (p : Nat) (hb : b.length = 128)
    (hp : p * 128 + 128 ≤ kvs.length) (hbocc : (fromBytes b).isSome = true)
    (i : Nat) (hi : occB kvs i = true) :
    occB (writeSlice kvs (p * 128) b) i = true := by
  by_cases hne : i = p
  · subst hne
    rw [occB_write_self kvs b i hb hp]
    exact hbocc
  · rw [occB_write_other kvs b p i hb hp hne]
    exact hi

theorem Stored_write_preserve (size : Nat) (kvs b : List Nat)
    (pr : List Nat × List Nat) (q p : Nat) (hst : Stored size kvs pr q)
    (hb : b.length = 128) (hp : p * 128 + 128 ≤ kvs.length)
    (hne : q ≠ p) (hbocc : (fromBytes b).isSome = true) :
    Stored size (writeSlice kvs (p * 128) b) pr q := by
  obtain ⟨hq, hslot, hclu⟩ := hst
  refine ⟨hq, ?_, ?_⟩
  · rw [slotAt_write_other kvs b p q hb hp hne]
    exact hslot
  · intro j hj
    exact occB_write_mono kvs b p hb hp hbocc _ (hclu j hj)

/-! ## Probing along a fully-occupied cluster -/

theorem probe_next (size a j : Nat) :
    ((a + j) % size + 1) % size = (a + (j + 1)) % size := by
  rw [Nat.mod_add_mod, Nat.add_assoc]

theorem getLoop_cluster (key v : List Nat) (size : Nat) (kvs : List Nat)
    (hlen : kvs.length = 128 * size) (hk : ValidKey key)
    (home D : Nat) (hhome : home < size) (hD : D < size)
    (htar : slotAt kvs ((home + D) % size) = itemNew key v)
    (hpath : ∀ j < D, ∃ item,
      fromBytes (slotAt kvs ((home + j) % size)) = some item ∧
        trimZeros item.1 ≠ key) :
    ∀ (m j : Nat), j + m = D →
      getLoop key size kvs (size - j) ((home + j) % size) =
        some (some (trimZeros (resizeZero v 96)))
  | 0, j, hjm => by
    have hj : j = D := by omega
    subst hj
    have hpos : 0 < size := by omega
    have hidx : (home + j) % size < size := Nat.mod_lt _ hpos
    have hoff : ((home + j) % size) * 128 + 128 ≤ kvs.length := by
      rw [hlen]; omega
    have hfuel : size - j = (size - j - 1) + 1 := by omega
    have hfb : fromBytes (readSlice kvs ((home + j) % size * 128) 128) =
        some (resizeZero key 32, resizeZero v 96) := by
      show fromBytes (slotAt kvs ((home + j) % size)) = _
      rw [htar]
      exact fromBytes_itemNew_valid key v hk
    rw [hfuel, getLoop_some key kvs size _ _
        (resizeZero key 32, resizeZero v 96) hoff hfb]
    rw [if_pos (trim_itemNew_key key hk)]
  | m+1, j, hjm => by
    have hjD : j < D := by omega
    have hpos : 0 < size := by omega
    have hidx : (home + j) % size < size := Nat.mod_lt _ hpos
    have hoff : ((home + j) % size) * 128 + 128 ≤ kvs.length := by
      rw [hlen]; omega
    obtain ⟨item, hfb, hne⟩ := hpath j hjD
    have hfb2 : fromBytes (readSlice kvs ((home + j) % size * 128) 128) =
        some item := hfb
    have hfuel : size - j = (size - (j + 1)) + 1 := by omega
    rw [hfuel, getLoop_some key kvs size _ _ item hoff hfb2, if_neg hne,
      probe_next]
    exact getLoop_cluster key v size kvs hlen hk home D hhome hD htar hpath
      m (j + 1) (by omega)

end Hash

namespace Hash

/-- Under the representation invariant, `get` retrieves every stored record
byte-for-byte. -/
theorem get_Inv_mem (t : HashTable) (M : List (List Nat × List Nat))
    (hInv : Inv t M) (pr : List Nat × List Nat) (hmem : pr ∈ M) :
    get t pr.1 = some (some pr.2) := by
  obtain ⟨hlen, hsz, htk, hMlt, hval, hnd, P, hF, hPnd, hocc⟩ := hInv
  have hpos : 0 < t.size := by omega
  have hlenMP : M.length = P.length := hF.length_eq
  have hget := (List.forall₂_iff_get.mp hF).2
  have hndP : M.Pairwise (fun a b => a.1 ≠ b.1) := List.pairwise_map.mp hnd
  obtain ⟨n, hn⟩ := List.mem_iff_get.mp hmem
  have hnP : (n : Nat) < P.length := by omega
  have hst : Stored t.size t.kvs pr (P.get ⟨n, hnP⟩) := by
    have h := hget n n.2 hnP
    have hn2 : M.get ⟨(n : Nat), n.2⟩ = pr := hn
    rw [hn2] at h
    exact h
  obtain ⟨hpLt, hslot, hclu⟩ := hst
  have hvk : ValidKey pr.1 := (hval pr hmem).1
  have hvv : ValidVal pr.2 := (hval pr hmem).2
  have hhome : homeIdx t.size pr.1 < t.size := Nat.mod_lt _ hpos
  have hD : cycD t.size (homeIdx t.size pr.1) (P.get ⟨n, hnP⟩) < t.size :=
    cycD_lt _ _ _ hpos
  have hpd : (homeIdx t.size pr.1 + cycD t.size (homeIdx t.size pr.1)
      (P.get ⟨n, hnP⟩)) % t.size = P.get ⟨n, hnP⟩ :=
    add_cycD _ _ _ (Nat.le_of_lt hhome) hpLt
  have htar : slotAt t.kvs ((homeIdx t.size pr.1 + cycD t.size
      (homeIdx t.size pr.1) (P.get ⟨n, hnP⟩)) % t.size) = itemNew pr.1 pr.2 := by
    rw [hpd]
    exact hslot
  have hpath : ∀ j < cycD t.size (homeIdx t.size pr.1) (P.get ⟨n, hnP⟩),
      ∃ item, fromBytes (slotAt t.kvs ((homeIdx t.size pr.1 + j) % t.size)) =
        some item ∧ trimZeros item.1 ≠ pr.1 := by
    intro j hj
    have hq : (homeIdx t.size pr.1 + j) % t.size < t.size := Nat.mod_lt _ hpos
    have hoccq : occB t.kvs ((homeIdx t.size pr.1 + j) % t.size) = true :=
      hclu j hj
    have hqP : (homeIdx t.size pr.1 + j) % t.size ∈ P := hocc _ hq hoccq
    obtain ⟨m, hm⟩ := List.mem_iff_get.mp hqP
    have hmM : (m : Nat) < M.length := by omega
    have hstm : Stored t.size t.kvs (M.get ⟨(m : Nat), hmM⟩) (P.get ⟨(m : Nat), m.2⟩) :=
      hget m hmM m.2
    obtain ⟨_, hslotm, _⟩ := hstm
    have hprmMem : M.get ⟨(m : Nat), hmM⟩ ∈ M := List.get_mem M _ _
    have hvkm : ValidKey (M.get ⟨(m : Nat), hmM⟩).1 :=
      (hval _ hprmMem).1
    have hm2 : P.get ⟨(m : Nat), m.2⟩ = (homeIdx t.size pr.1 + j) % t.size := hm
    refine ⟨(resizeZero (M.get ⟨(m : Nat), hmM⟩).1 32,
      resizeZero (M.get ⟨(m : Nat), hmM⟩).2 96), ?_, ?_⟩
    · rw [hm2] at hslotm
      rw [hslotm]
      exact fromBytes_itemNew_valid _ _ hvkm
    · rw [trim_itemNew_key _ hvkm]
      intro hkeq
      by_cases hmn : (m : Nat) = (n : Nat)
      · have hPeq : P.get ⟨(m : Nat), m.2⟩ = P.get ⟨n, hnP⟩ := by
          congr 1
          exact Fin.ext hmn
        rw [hm2] at hPeq
        have hjD : j = cycD t.size (homeIdx t.size pr.1) (P.get ⟨n, hnP⟩) := by
          rw [← hPeq]
          exact (cycD_of_add t.size (homeIdx t.size pr.1) j hhome
            (Nat.lt_trans hj hD)).symm
        omega
      · have hn2 : M.get ⟨(n : Nat), n.2⟩ = pr := hn
        rcases Nat.lt_or_ge (m : Nat) (n : Nat) with hlt | hge
        · have := (List.pairwise_iff_get.mp hndP) ⟨(m : Nat), hmM⟩ ⟨(n : Nat), n.2⟩
            (by exact hlt)
          rw [hn2] at this
          exact this hkeq
        · have hgt : (n : Nat) < (m : Nat) := by omega
          have := (List.pairwise_iff_get.mp hndP) ⟨(n : Nat), n.2⟩ ⟨(m : Nat), hmM⟩
            (by exact hgt)
          rw [hn2] at this
          exact this hkeq.symm
  have hmain := getLoop_cluster pr.1 pr.2 t.size t.kvs hlen hvk
    (homeIdx t.size pr.1) (cycD t.size (homeIdx t.size pr.1) (P.get ⟨n, hnP⟩))
    hhome hD htar hpath (cycD t.size (homeIdx t.size pr.1) (P.get ⟨n, hnP⟩)) 0
    (by omega)
  rw [Nat.sub_zero, Nat.add_zero, Nat.mod_eq_of_lt hhome,
    trim_itemNew_val pr.2 hvv] at hmain
  unfold get
  rw [if_neg (Nat.pos_iff_ne_zero.mp hpos)]
  exact hmain

end Hash

/-- `Forall₂` extended by one related pair at the end. -/
theorem forall₂_append_one {α β : Type} {R : α → β → Prop} :
    ∀ {l₁ : List α} {l₂ : List β}, List.Forall₂ R l₁ l₂ → ∀ {a : α} {b : β},
      R a b → List.Forall₂ R (l₁ ++ [a]) (l₂ ++ [b])
  | [], [], _, a, b, hab => by
    simpa using List.forall₂_cons.mpr ⟨hab, List.Forall₂.nil⟩
  | x :: l₁, y :: l₂, h, a, b, hab => by
    obtain ⟨hxy, hrest⟩ := List.forall₂_cons.mp h
    simpa using List.forall₂_cons.mpr ⟨hxy, forall₂_append_one hrest hab⟩

namespace Hash

/-- A table holding strictly fewer records than slots has an empty slot. -/
theorem exists_empty_slot (t : HashTable) (M : List (List Nat × List Nat))
    (P : List Nat) (hF : List.Forall₂ (Stored t.size t.kvs) M P)
    (hMlt : M.length < t.size)
    (hocc : ∀ i < t.size, occB t.kvs i = true → i ∈ P) :
    ∃ i < t.size, occB t.kvs i = false := by
  by_contra hall
  push_neg at hall
  have hsub : (List.range t.size).toFinset ⊆ P.toFinset := by
    intro i hi
    rw [List.mem_toFinset, List.mem_range] at hi
    rw [List.mem_toFinset]
    apply hocc i hi
    have := hall i hi
    cases h : occB t.kvs i with
    | false => exact absurd h this
    | true => rfl
  have h1 : (List.range t.size).toFinset.card = t.size := by
    rw [List.toFinset_card_of_nodup (List.nodup_range t.size),
      List.length_range]
  have h2 : P.toFinset.card ≤ P.length := List.toFinset_card_le P
  have h3 := Finset.card_le_card hsub
  have h4 : P.length = M.length := hF.length_eq.symm
  omega

/-- Walking the probe sequence from the home slot over `D` occupied
non-matching slots to the first empty slot writes the bucket there. -/
theorem setLoop_insert (key bucket : List Nat) (size : Nat) (kvs : List Nat)
    (taken : Nat) (hlen : kvs.length = 128 * size)
    (home D : Nat) (hhome : home < size) (hD : D < size)
    (hempty : occB kvs ((home + D) % size) = false)
    (hpath : ∀ j < D, ∃ item,
      fromBytes (slotAt kvs ((home + j) % size)) = some item ∧
        trimZeros item.1 ≠ key) :
    ∀ (m j : Nat), j + m = D →
      setLoop key bucket size (size - j) ((home + j) % size) kvs taken =
        some (writeSlice kvs (((home + D) % size) * 128) bucket, taken + 1)
  | 0, j, hjm => by
    have hj : j = D := by omega
    subst hj
    have hpos : 0 < size := by omega
    have hoff : ((home + j) % size) * 128 + 128 ≤ kvs.length := by
      have : (home + j) % size < size := Nat.mod_lt _ hpos
      rw [hlen]; omega
    have hfb : fromBytes (readSlice kvs ((home + j) % size * 128) 128) = none := by
      have h : (fromBytes (readSlice kvs ((home + j) % size * 128) 128)).isSome
          = false := hempty
      exact Option.not_isSome_iff_eq_none.mp (by rw [h]; simp)
    rw [show size - j = (size - j - 1) + 1 by omega]
    rw [setLoop_none key bucket kvs size _ _ taken hoff hfb]
  | m+1, j, hjm => by
    have hjD : j < D := by omega
    have hpos : 0 < size := by omega
    have hoff : ((home + j) % size) * 128 + 128 ≤ kvs.length := by
      have : (home + j) % size < size := Nat.mod_lt _ hpos
      rw [hlen]; omega
    obtain ⟨item, hfb, hne⟩ := hpath j hjD
    have hfb2 : fromBytes (readSlice kvs ((home + j) % size * 128) 128) =
        some item := hfb
    rw [show size - j = (size - (j + 1)) + 1 by omega]
    rw [setLoop_some key bucket kvs size _ _ taken item hoff hfb2, if_neg hne,
      probe_next]
    exact setLoop_insert key bucket size kvs taken hlen home D hhome hD
      hempty hpath m (j + 1) (by omega)

end Hash

namespace Hash

theorem occB_of_itemNew (kvs : List Nat) (q : Nat) (k2 v2 : List Nat)
    (hslot : slotAt kvs q = itemNew k2 v2) (hvk : ValidKey k2) :
    occB kvs q = true := by
  unfold occB
  rw [hslot, fromBytes_itemNew_valid k2 v2 hvk]
  rfl

/-- Inserting a fresh in-limit record through the probe loop preserves the
representation invariant, extending the record list. -/
theorem insertStep_Inv (t : HashTable) (M : List (List Nat × List Nat))
    (hInv : Inv t M) (k v : List Nat) (hvk : ValidKey k) (hvv : ValidVal v)
    (hfresh : k ∉ M.map Prod.fst) (hroom : M.length + 1 < t.size) :
    ∃ t2, insertStep t k v = some t2 ∧ t2.size = t.size ∧
      Inv t2 (M ++ [(k, v)]) := by
  obtain ⟨hlen, hsz, htk, hMlt, hval, hnd, P, hF, hPnd, hocc⟩ := hInv
  have hpos : 0 < t.size := by omega
  obtain ⟨i0, hi0lt, hi0⟩ := exists_empty_slot t M P hF hMlt hocc
  have hhome : homeIdx t.size k < t.size := Nat.mod_lt _ hpos
  have hex : ∃ j, j < t.size ∧
      occB t.kvs ((homeIdx t.size k + j) % t.size) = false := by
    refine ⟨cycD t.size (homeIdx t.size k) i0, cycD_lt _ _ _ hpos, ?_⟩
    rw [add_cycD _ _ _ (Nat.le_of_lt hhome) hi0lt]
    exact hi0
  obtain ⟨hDlt, hDempty⟩ := Nat.find_spec hex
  have hmin : ∀ j < Nat.find hex,
      occB t.kvs ((homeIdx t.size k + j) % t.size) = true := by
    intro j hj
    have hnotm := Nat.find_min hex hj
    have hjlt : j < t.size := Nat.lt_trans hj hDlt
    cases hb : occB t.kvs ((homeIdx t.size k + j) % t.size) with
    | false => exact absurd ⟨hjlt, hb⟩ hnotm
    | true => rfl
  -- every slot on the occupied prefix of the probe path holds a key of M
  have hpath : ∀ j < Nat.find hex, ∃ item,
      fromBytes (slotAt t.kvs ((homeIdx t.size k + j) % t.size)) = some item ∧
        trimZeros item.1 ≠ k := by
    intro j hj
    have hq : (homeIdx t.size k + j) % t.size < t.size := Nat.mod_lt _ hpos
    have hqP : (homeIdx t.size k + j) % t.size ∈ P := hocc _ hq (hmin j hj)
    obtain ⟨m, hm⟩ := List.mem_iff_get.mp hqP
    have hmM : (m : Nat) < M.length := by
      have := hF.length_eq
      omega
    have hstm : Stored t.size t.kvs (M.get ⟨(m : Nat), hmM⟩)
        (P.get ⟨(m : Nat), m.2⟩) := (List.forall₂_iff_get.mp hF).2 m hmM m.2
    have hprmMem : M.get ⟨(m : Nat), hmM⟩ ∈ M := List.get_mem M _ _
    have hvkm : ValidKey (M.get ⟨(m : Nat), hmM⟩).1 := (hval _ hprmMem).1
    have hm2 : P.get ⟨(m : Nat), m.2⟩ = (homeIdx t.size k + j) % t.size := hm
    obtain ⟨_, hslotm, _⟩ := hstm
    rw [hm2] at hslotm
    refine ⟨(resizeZero (M.get ⟨(m : Nat), hmM⟩).1 32,
      resizeZero (M.get ⟨(m : Nat), hmM⟩).2 96), ?_, ?_⟩
    · rw [hslotm]
      exact fromBytes_itemNew_valid _ _ hvkm
    · rw [trim_itemNew_key _ hvkm]
      intro hkeq
      apply hfresh
      rw [← hkeq]
      exact List.mem_map.mpr ⟨_, hprmMem, rfl⟩
  have hrun := setLoop_insert k (itemNew k v) t.size t.kvs t.no_of_taken hlen
    (homeIdx t.size k) (Nat.find hex) hhome hDlt hDempty hpath
    (Nat.find hex) 0 (by omega)
  rw [Nat.sub_zero, Nat.add_zero, Nat.mod_eq_of_lt hhome] at hrun
  -- the target slot and the new table
  have hplt : (homeIdx t.size k + Nat.find hex) % t.size < t.size :=
    Nat.mod_lt _ hpos
  have hpoff : ((homeIdx t.size k + Nat.find hex) % t.size) * 128 + 128 ≤
      t.kvs.length := by
    rw [hlen]; omega
  have hblen : (itemNew k v).length = 128 := itemNew_length k v
  have hbocc : (fromBytes (itemNew k v)).isSome = true := by
    rw [fromBytes_itemNew_valid k v hvk]
    rfl
  refine ⟨⟨writeSlice t.kvs (((homeIdx t.size k + Nat.find hex) % t.size) * 128)
      (itemNew k v), t.size, t.no_of_taken + 1⟩, ?_, rfl, ?_⟩
  · unfold insertStep
    have hrun2 : setLoop k (itemNew k v) t.size t.size (djb2 k % t.size)
        t.kvs t.no_of_taken =
        some (writeSlice t.kvs
          ((homeIdx t.size k + Nat.find hex) % t.size * 128) (itemNew k v),
          t.no_of_taken + 1) := hrun
    rw [if_neg (Nat.pos_iff_ne_zero.mp hpos), hrun2]
    rfl
  · -- the new invariant
    have hq_ne : ∀ (pr : List Nat × List Nat) (q : Nat), ValidKey pr.1 →
        Stored t.size t.kvs pr q →
        q ≠ (homeIdx t.size k + Nat.find hex) % t.size := by
      intro pr q hv1 hst heq
      have h1 : occB t.kvs q = true := occB_of_itemNew t.kvs q pr.1 pr.2 hst.2.1 hv1
      rw [heq, hDempty] at h1
      exact Bool.noConfusion h1
    have hF1 : List.Forall₂
        (fun pr q => ValidKey pr.1 ∧ Stored t.size t.kvs pr q) M P :=
      (List.forall₂_and_left M P).mpr ⟨fun pr hpr => (hval pr hpr).1, hF⟩
    have hF2 : List.Forall₂ (Stored t.size
        (writeSlice t.kvs (((homeIdx t.size k + Nat.find hex) % t.size) * 128)
          (itemNew k v))) M P := by
      refine hF1.imp ?_
      rintro pr q ⟨hv1, hst⟩
      exact Stored_write_preserve t.size t.kvs (itemNew k v) pr q
        ((homeIdx t.size k + Nat.find hex) % t.size) hst hblen
        hpoff (hq_ne pr q hv1 hst) hbocc
    have hnewStored : Stored t.size
        (writeSlice t.kvs (((homeIdx t.size k + Nat.find hex) % t.size) * 128)
          (itemNew k v)) (k, v) ((homeIdx t.size k + Nat.find hex) % t.size) := by
      refine ⟨hplt, slotAt_write_self t.kvs (itemNew k v) _ hblen hpoff, ?_⟩
      intro j hj
      have hcd : cycD t.size (homeIdx t.size (k, v).1)
          ((homeIdx t.size k + Nat.find hex) % t.size) = Nat.find hex :=
        cycD_of_add t.size (homeIdx t.size k) (Nat.find hex) hhome hDlt
      rw [hcd] at hj
      exact occB_write_mono t.kvs (itemNew k v) _ hblen hpoff hbocc _ (hmin j hj)
    have hpnotP : (homeIdx t.size k + Nat.find hex) % t.size ∉ P := by
      intro hpP
      obtain ⟨m, hm⟩ := List.mem_iff_get.mp hpP
      have hmM : (m : Nat) < M.length := by
        have := hF.length_eq
        omega
      have hstm : Stored t.size t.kvs (M.get ⟨(m : Nat), hmM⟩)
          (P.get ⟨(m : Nat), m.2⟩) := (List.forall₂_iff_get.mp hF).2 m hmM m.2
      have hprmMem : M.get ⟨(m : Nat), hmM⟩ ∈ M := List.get_mem M _ _
      have hvkm : ValidKey (M.get ⟨(m : Nat), hmM⟩).1 := (hval _ hprmMem).1
      exact hq_ne _ _ hvkm hstm hm
    refine ⟨?_, hsz, ?_, ?_, ?_, ?_, P ++ [(homeIdx t.size k + Nat.find hex) % t.size],
      forall₂_append_one hF2 hnewStored, ?_, ?_⟩
    · show (writeSlice t.kvs _ (itemNew k v)).length = 128 * t.size
      rw [length_writeSlice t.kvs (itemNew k v) _ (by rw [hblen]; exact hpoff)]
      exact hlen
    · show t.no_of_taken + 1 = (M ++ [(k, v)]).length
      rw [List.length_append, htk]
      rfl
    · show (M ++ [(k, v)]).length < t.size
      rw [List.length_append]
      simpa using hroom
    · intro pr hpr
      rcases List.mem_append.mp hpr with h | h
      · exact hval pr h
      · have : pr = (k, v) := by simpa using h
        rw [this]
        exact ⟨hvk, hvv⟩
    · rw [List.map_append]
      rw [List.nodup_append]
      refine ⟨hnd, by simp, ?_⟩
      intro a ha hmem
      have : a = k := by simpa using hmem
      rw [this] at ha
      exact hfresh ha
    · rw [List.nodup_append]
      refine ⟨hPnd, by simp, ?_⟩
      intro a ha hmem
      have : a = (homeIdx t.size k + Nat.find hex) % t.size := by simpa using hmem
      rw [this] at ha
      exact hpnotP ha
    · intro i hi hoccI
      by_cases hip : i = (homeIdx t.size k + Nat.find hex) % t.size
      · exact List.mem_append.mpr (Or.inr (by simp [hip]))
      · rw [occB_write_other t.kvs (itemNew k v) _ i hblen hpoff hip] at hoccI
        exact List.mem_append.mpr (Or.inl (hocc i hi hoccI))

end Hash

namespace Hash

/-- The slot-indexed re-insertion loop is the fold of the put function over
the decoded records. -/
theorem reinsertWith_eq_pairsFold
    (setFn : HashTable → List Nat → List Nat → Option HashTable)
    (oldKvs : List Nat) :
    ∀ (idxs : List Nat) (acc : HashTable),
      (∀ i ∈ idxs, i * 128 + 128 ≤ oldKvs.length) →
      reinsertWith setFn oldKvs idxs acc =
        pairsFold setFn (idxs.filterMap (decodeSlot oldKvs)) acc
  | [], acc, _ => rfl
  | i :: rest, acc, hold => by
    have hoff : i * 128 + 128 ≤ oldKvs.length := hold i (List.mem_cons_self i rest)
    have hrest : ∀ j ∈ rest, j * 128 + 128 ≤ oldKvs.length :=
      fun j hj => hold j (List.mem_cons_of_mem i hj)
    cases hfb : fromBytes (readSlice oldKvs (i * 128) 128) with
    | none =>
      rw [reinsertWith_skip _ _ _ _ _ hoff hfb]
      have hdec : decodeSlot oldKvs i = none := by
        unfold decodeSlot
        have : fromBytes (slotAt oldKvs i) = none := hfb
        rw [this]
        rfl
      rw [List.filterMap_cons, hdec]
      exact reinsertWith_eq_pairsFold setFn oldKvs rest acc hrest
    | some item =>
      rw [reinsertWith_some _ _ _ _ _ item hoff hfb]
      have hdec : decodeSlot oldKvs i =
          some (trimZeros item.1, trimZeros item.2) := by
        unfold decodeSlot
        have : fromBytes (slotAt oldKvs i) = some item := hfb
        rw [this]
        rfl
      rw [List.filterMap_cons, hdec]
      show _ = (setFn acc (trimZeros item.1) (trimZeros item.2)).bind
        (pairsFold setFn (rest.filterMap (decodeSlot oldKvs)))
      cases setFn acc (trimZeros item.1) (trimZeros item.2) with
      | none => rfl
      | some acc1 =>
        rw [Option.some_bind, Option.some_bind]
        exact reinsertWith_eq_pairsFold setFn oldKvs rest acc1 hrest

/-- Folding the depth-0 put over fresh valid records with room under the
load factor preserves the invariant and appends the records. -/
theorem pairsFold_set0_Inv :
    ∀ (L : List (List Nat × List Nat)) (acc : HashTable)
      (Macc : List (List Nat × List Nat)),
      Inv acc Macc →
      (∀ pr ∈ L, ValidKey pr.1 ∧ ValidVal pr.2) →
      ((Macc ++ L).map Prod.fst).Nodup →
      Macc.length + L.length ≤ load_factor acc.size →
      ∃ acc2, pairsFold (set 0) L acc = some acc2 ∧ Inv acc2 (Macc ++ L) ∧
        acc2.size = acc.size
  | [], acc, Macc, hInv, _, _, _ => ⟨acc, rfl, by simpa using hInv, rfl⟩
  | pr :: rest, acc, Macc, hInv, hvalL, hnodup, hroom => by
    have hsz : 32 ≤ acc.size := hInv.2.1
    have htk : acc.no_of_taken = Macc.length := hInv.2.2.1
    have hlf : acc.no_of_taken < load_factor acc.size := by
      rw [htk]
      simp only [List.length_cons] at hroom
      omega
    have hvpr : ValidKey pr.1 ∧ ValidVal pr.2 :=
      hvalL pr (List.mem_cons_self pr rest)
    have hfresh : pr.1 ∉ Macc.map Prod.fst := by
      intro hmem
      rw [List.map_append, List.nodup_append] at hnodup
      exact hnodup.2.2 hmem
        (by simp only [List.map_cons]; exact List.mem_cons_self _ _)
    have hroomIns : Macc.length + 1 < acc.size := by
      have hlfs : load_factor acc.size < acc.size := by
        unfold load_factor
        omega
      simp only [List.length_cons] at hroom
      omega
    obtain ⟨acc1, hrun1, hs1, hInv1⟩ :=
      insertStep_Inv acc Macc hInv pr.1 pr.2 hvpr.1 hvpr.2 hfresh hroomIns
    have hset0 : set 0 acc pr.1 pr.2 = some acc1 := by
      show (if load_factor acc.size ≤ acc.no_of_taken then none
        else insertStep acc pr.1 pr.2) = some acc1
      rw [if_neg (Nat.not_le.mpr hlf), hrun1]
    have hassoc : Macc ++ pr :: rest = (Macc ++ [pr]) ++ rest := by simp
    obtain ⟨acc2, hrun2, hInv2, hs2⟩ :=
      pairsFold_set0_Inv rest acc1 (Macc ++ [pr])
        (by
          have : (Macc ++ [pr]) = Macc ++ [(pr.1, pr.2)] := by simp
          rw [this]
          exact hInv1)
        (fun q hq => hvalL q (List.mem_cons_of_mem pr hq))
        (by rw [← hassoc]; exact hnodup)
        (by
          have h1 : (Macc ++ [pr]).length = Macc.length + 1 := by simp
          rw [h1, hs1]
          simp only [List.length_cons] at hroom
          omega)
    refine ⟨acc2, ?_, by rw [hassoc]; exact hInv2, by rw [hs2, hs1]⟩
    show (set 0 acc pr.1 pr.2).bind (pairsFold (set 0) rest) = some acc2
    rw [hset0, Option.some_bind, hrun2]

end Hash

theorem pairwise_filterMap_of_mem {α β : Type} {R : α → α → Prop}
    {S : β → β → Prop} (f : α → Option β) :
    ∀ (l : List α),
      (∀ a ∈ l, ∀ a' ∈ l, R a a' → ∀ b ∈ f a, ∀ b' ∈ f a', S b b') →
      List.Pairwise R l → List.Pairwise S (l.filterMap f)
  | [], _, _ => by simp
  | a :: l, h, hp => by
    obtain ⟨hhead, htail⟩ := List.pairwise_cons.mp hp
    have hrec := pairwise_filterMap_of_mem f l
      (fun x hx x' hx' hr => h x (List.mem_cons_of_mem a hx) x'
        (List.mem_cons_of_mem a hx') hr)
      htail
    rw [List.filterMap_cons]
    cases hfa : f a with
    | none => exact hrec
    | some b =>
      rw [List.pairwise_cons]
      refine ⟨?_, hrec⟩
      intro b' hb'
      obtain ⟨a', ha', hfa'⟩ := List.mem_filterMap.mp hb'
      exact h a (List.mem_cons_self a l) a' (List.mem_cons_of_mem a ha')
        (hhead a' ha') b (by rw [hfa]; simp) b' (by rw [hfa']; simp)

namespace Hash

/-- Every decoded slot of an invariant-satisfying table is a record of `M`,
located at its stored position. -/
theorem decodeSlot_locate (t : HashTable) (M : List (List Nat × List Nat))
    (P : List Nat) (hF : List.Forall₂ (Stored t.size t.kvs) M P)
    (hval : ∀ pr ∈ M, ValidKey pr.1 ∧ ValidVal pr.2)
    (hocc : ∀ i < t.size, occB t.kvs i = true → i ∈ P)
    (i : Nat) (hi : i < t.size) (pr : List Nat × List Nat)
    (hdec : decodeSlot t.kvs i = some pr) :
    ∃ (mi : Nat) (hm : mi < M.length) (hmp : mi < P.length),
      M.get ⟨mi, hm⟩ = pr ∧ P.get ⟨mi, hmp⟩ = i := by
  have hoccI : occB t.kvs i = true := by
    unfold decodeSlot at hdec
    unfold occB
    cases hfb : fromBytes (slotAt t.kvs i) with
    | none =>
      rw [hfb] at hdec
      exact Option.noConfusion hdec
    | some it => rfl
  obtain ⟨m, hm⟩ := List.mem_iff_get.mp (hocc i hi hoccI)
  have hmM : (m : Nat) < M.length := by
    have := hF.length_eq
    omega
  have hstm : Stored t.size t.kvs (M.get ⟨(m : Nat), hmM⟩)
      (P.get ⟨(m : Nat), m.2⟩) := (List.forall₂_iff_get.mp hF).2 m hmM m.2
  have hmem : M.get ⟨(m : Nat), hmM⟩ ∈ M := List.get_mem M _ _
  have hvk := (hval _ hmem).1
  have hvv := (hval _ hmem).2
  have hm2 : P.get ⟨(m : Nat), m.2⟩ = i := hm
  refine ⟨m, hmM, m.2, ?_, hm2⟩
  obtain ⟨_, hslotm, _⟩ := hstm
  rw [hm2] at hslotm
  unfold decodeSlot at hdec
  rw [hslotm, fromBytes_itemNew_valid _ _ hvk] at hdec
  have heq : (trimZeros (resizeZero (M.get ⟨(m : Nat), hmM⟩).1 32),
      trimZeros (resizeZero (M.get ⟨(m : Nat), hmM⟩).2 96)) = pr := by
    simpa using hdec
  rw [trim_itemNew_key _ hvk, trim_itemNew_val _ hvv] at heq
  rw [← heq]

theorem slotPairs_mem_iff (t : HashTable) (M : List (List Nat × List Nat))
    (hInv : Inv t M) :
    ∀ pr, pr ∈ slotPairs t.kvs t.size ↔ pr ∈ M := by
  obtain ⟨hlen, hsz, htk, hMlt, hval, hnd, P, hF, hPnd, hocc⟩ := hInv
  intro pr
  constructor
  · intro h
    obtain ⟨i, hi, hdec⟩ := List.mem_filterMap.mp h
    obtain ⟨mi, hm, hmp, hMg, _⟩ := decodeSlot_locate t M P hF hval hocc i
      (List.mem_range.mp hi) pr hdec
    rw [← hMg]
    exact List.get_mem M _ _
  · intro h
    obtain ⟨n, hn⟩ := List.mem_iff_get.mp h
    have hnP : (n : Nat) < P.length := by
      have := hF.length_eq
      omega
    have hst : Stored t.size t.kvs pr (P.get ⟨(n : Nat), hnP⟩) := by
      have h2 := (List.forall₂_iff_get.mp hF).2 n n.2 hnP
      have hn2 : M.get ⟨(n : Nat), n.2⟩ = pr := hn
      rw [hn2] at h2
      exact h2
    obtain ⟨hplt, hslot, _⟩ := hst
    refine List.mem_filterMap.mpr ⟨P.get ⟨(n : Nat), hnP⟩,
      List.mem_range.mpr hplt, ?_⟩
    unfold decodeSlot
    rw [hslot, fromBytes_itemNew_valid _ _ (hval pr h).1]
    simp only [Option.map_some']
    rw [trim_itemNew_key _ (hval pr h).1, trim_itemNew_val _ (hval pr h).2]

theorem slotPairs_nodup_keys (t : HashTable) (M : List (List Nat × List Nat))
    (hInv : Inv t M) :
    ((slotPairs t.kvs t.size).map Prod.fst).Nodup := by
  obtain ⟨hlen, hsz, htk, hMlt, hval, hnd, P, hF, hPnd, hocc⟩ := hInv
  have hndP : M.Pairwise (fun a b => a.1 ≠ b.1) := List.pairwise_map.mp hnd
  rw [List.Nodup, List.pairwise_map]
  refine @pairwise_filterMap_of_mem Nat (List Nat × List Nat)
    (fun a b => a ≠ b) (fun b b2 => ¬b.1 = b2.1) (decodeSlot t.kvs)
    (List.range t.size) ?_ (List.nodup_range t.size)
  intro a ha a' ha' hne b hb b' hb'
  have haS := List.mem_range.mp ha
  have haS' := List.mem_range.mp ha'
  obtain ⟨mi, hmi, hmpi, hMi, hPi⟩ :=
    decodeSlot_locate t M P hF hval hocc a haS b hb
  obtain ⟨mj, hmj, hmpj, hMj, hPj⟩ :=
    decodeSlot_locate t M P hF hval hocc a' haS' b' hb'
  have hij : mi ≠ mj := by
    intro heq
    apply hne
    rw [← hPi, ← hPj]
    congr 1
    exact Fin.ext heq
  intro hkeq
  rcases Nat.lt_or_ge mi mj with hlt | hge
  · have := (List.pairwise_iff_get.mp hndP) ⟨mi, hmi⟩ ⟨mj, hmj⟩ (by exact hlt)
    rw [hMi, hMj] at this
    exact this hkeq
  · have hgt : mj < mi := by omega
    have := (List.pairwise_iff_get.mp hndP) ⟨mj, hmj⟩ ⟨mi, hmi⟩ (by exact hgt)
    rw [hMi, hMj] at this
    exact this hkeq.symm

theorem Inv_fresh (s : Nat) (hs : 32 ≤ s) :
    Inv ⟨List.replicate (s * 128) 0, s, 0⟩ [] := by
  refine ⟨?_, hs, rfl, ?_, by simp, by simp, [], List.Forall₂.nil,
    by simp, ?_⟩
  · show (List.replicate (s * 128) (0 : Nat)).length = 128 * s
    rw [List.length_replicate]
    omega
  · show ([] : List (List Nat × List Nat)).length < s
    simp only [List.length_nil]
    omega
  · intro i hi hocc2
    exfalso
    have hi2 : i < s := hi
    have hocc3 : occB (List.replicate (s * 128) 0) i = true := hocc2
    have hslot : slotAt (List.replicate (s * 128) (0 : Nat)) i =
        List.replicate 128 0 := by
      unfold slotAt
      apply readSlice_replicate
      omega
    unfold occB at hocc3
    rw [hslot, fromBytes_replicate] at hocc3
    exact Bool.noConfusion hocc3

/-- `extend` (at the bottom fuel level) succeeds under the invariant,
doubles the capacity, and carries over exactly the stored records. -/
theorem extend_Inv (t : HashTable) (M : List (List Nat × List Nat))
    (hInv : Inv t M) :
    ∃ t2, extend 0 t = some t2 ∧ t2.size = t.size * 2 ∧
      Inv t2 (slotPairs t.kvs t.size) ∧
      (∀ pr, pr ∈ slotPairs t.kvs t.size ↔ pr ∈ M) ∧
      (slotPairs t.kvs t.size).length ≤ t.size := by
  have hmem := slotPairs_mem_iff t M hInv
  have hndL := slotPairs_nodup_keys t M hInv
  have hlen := hInv.1
  have hsz := hInv.2.1
  have hval := hInv.2.2.2.2.1
  have hLle : (slotPairs t.kvs t.size).length ≤ t.size := by
    unfold slotPairs
    calc ((List.range t.size).filterMap (decodeSlot t.kvs)).length
        ≤ (List.range t.size).length := List.length_filterMap_le _ _
      _ = t.size := List.length_range t.size
  have hfresh2 : (⟨List.replicate (t.size * 2 * 128) 0, t.size * 2, 0⟩ :
      HashTable) = ⟨List.replicate ((t.size * 2) * 128) 0, t.size * 2, 0⟩ := rfl
  obtain ⟨acc2, hrun, hInv2, hs2⟩ :=
    pairsFold_set0_Inv (slotPairs t.kvs t.size)
      ⟨List.replicate (t.size * 2 * 128) 0, t.size * 2, 0⟩ []
      (Inv_fresh (t.size * 2) (by omega))
      (fun pr hpr => hval pr ((hmem pr).mp hpr))
      (by simpa using hndL)
      (by
        show 0 + (slotPairs t.kvs t.size).length ≤ load_factor (t.size * 2)
        unfold load_factor
        omega)
  refine ⟨acc2, ?_, by rw [hs2], by simpa using hInv2, hmem, hLle⟩
  unfold extend
  rw [reinsertWith_eq_pairsFold (set 0) t.kvs (List.range t.size) _
    (fun i hi => by
      have := List.mem_range.mp hi
      rw [hlen]
      omega)]
  exact hrun

end Hash

namespace Hash

/-- One public `set` of a fresh in-limit record preserves the invariant (the
record list may be reshuffled by a growth rebuild, but keeps the same
members). -/
theorem setOp_Inv (t : HashTable) (M : List (List Nat × List Nat))
    (hInv : Inv t M) (k v : List Nat) (hvk : ValidKey k) (hvv : ValidVal v)
    (hfresh : k ∉ M.map Prod.fst) :
    ∃ t2 M2, setOp t k v = some t2 ∧ Inv t2 (M2 ++ [(k, v)]) ∧
      (∀ pr, pr ∈ M2 ↔ pr ∈ M) := by
  have hsz := hInv.2.1
  have htk := hInv.2.2.1
  unfold setOp
  rw [set_succ_eq]
  by_cases hlf : load_factor t.size ≤ t.no_of_taken
  · rw [if_pos hlf]
    obtain ⟨te, hrun, hsize, hInvE, hmemE, hlenE⟩ := extend_Inv t M hInv
    rw [hrun, Option.some_bind]
    have hfreshE : k ∉ (slotPairs t.kvs t.size).map Prod.fst := by
      intro hk2
      obtain ⟨pr, hpr, hprk⟩ := List.mem_map.mp hk2
      exact hfresh (List.mem_map.mpr ⟨pr, (hmemE pr).mp hpr, hprk⟩)
    have hroom : (slotPairs t.kvs t.size).length + 1 < te.size := by
      rw [hsize]
      omega
    obtain ⟨t2, hrun2, _, hInv2⟩ :=
      insertStep_Inv te (slotPairs t.kvs t.size) hInvE k v hvk hvv hfreshE hroom
    exact ⟨t2, slotPairs t.kvs t.size, by rw [hrun2], hInv2, hmemE⟩
  · rw [if_neg hlf]
    have hroom : M.length + 1 < t.size := by
      push_neg at hlf
      rw [htk] at hlf
      have hlfs : load_factor t.size < t.size := by
        unfold load_factor
        omega
      omega
    obtain ⟨t2, hrun2, _, hInv2⟩ :=
      insertStep_Inv t M hInv k v hvk hvv hfresh hroom
    exact ⟨t2, M, by rw [hrun2], hInv2, fun pr => Iff.rfl⟩

/-- Folding the public put over a sequence of distinct in-limit records
succeeds and every record of the sequence (and every previously stored one)
is in the final record list. -/
theorem insertAll_Inv :
    ∀ (ps : List (List Nat × List Nat)) (t : HashTable)
      (M : List (List Nat × List Nat)),
      Inv t M →
      (∀ pr ∈ ps, ValidKey pr.1 ∧ ValidVal pr.2) →
      (ps.map Prod.fst).Nodup →
      (∀ a ∈ ps.map Prod.fst, a ∉ M.map Prod.fst) →
      ∃ t2 M2, insertAll ps t = some t2 ∧ Inv t2 M2 ∧
        (∀ pr ∈ ps, pr ∈ M2) ∧ (∀ pr ∈ M, pr ∈ M2)
  | [], t, M, hInv, _, _, _ => ⟨t, M, rfl, hInv, by simp, fun pr h => h⟩
  | pr :: rest, t, M, hInv, hval, hnd, hdisj => by
    have hfresh : pr.1 ∉ M.map Prod.fst :=
      hdisj pr.1 (by rw [List.map_cons]; exact List.mem_cons_self _ _)
    obtain ⟨t1, M2, hrun1, hInv1, hmem2⟩ := setOp_Inv t M hInv pr.1 pr.2
      (hval pr (List.mem_cons_self pr rest)).1
      (hval pr (List.mem_cons_self pr rest)).2 hfresh
    have hval2 : ∀ q ∈ rest, ValidKey q.1 ∧ ValidVal q.2 :=
      fun q hq => hval q (List.mem_cons_of_mem pr hq)
    have hndc := hnd
    rw [List.map_cons, List.nodup_cons] at hndc
    have hdisj2 : ∀ a ∈ rest.map Prod.fst,
        a ∉ (M2 ++ [(pr.1, pr.2)]).map Prod.fst := by
      intro a ha hmem
      rw [List.map_append] at hmem
      rcases List.mem_append.mp hmem with h | h
      · obtain ⟨q, hq, hqa⟩ := List.mem_map.mp h
        have haM : a ∈ M.map Prod.fst :=
          List.mem_map.mpr ⟨q, (hmem2 q).mp hq, hqa⟩
        exact hdisj a
          (by rw [List.map_cons]; exact List.mem_cons_of_mem _ ha) haM
      · have ha2 : a = pr.1 := by simpa using h
        exact hndc.1 (ha2 ▸ ha)
    obtain ⟨t2, M3, hrun2, hInv2, hmemRest, hmemOld⟩ :=
      insertAll_Inv rest t1 (M2 ++ [(pr.1, pr.2)]) hInv1 hval2 hndc.2 hdisj2
    refine ⟨t2, M3, ?_, hInv2, ?_, ?_⟩
    · show (setOp t pr.1 pr.2).bind (insertAll rest) = some t2
      rw [hrun1, Option.some_bind, hrun2]
    · intro q hq
      rcases List.mem_cons.mp hq with h | h
      · have : (pr.1, pr.2) ∈ M3 :=
          hmemOld _ (List.mem_append.mpr (Or.inr (by simp)))
        rw [h]
        simpa using this
      · exact hmemRest q h
    · intro q hq
      exact hmemOld q (List.mem_append.mpr (Or.inl ((hmem2 q).mpr hq)))

theorem Inv_new : Inv new [] :=
  Inv_fresh 32 (Nat.le_refl 32)

end Hash

namespace HashBucket

theorem hb_new_len : (new.kvs).length = 256 := by
  show (List.replicate 256 (0 : Nat)).length = 256
  rw [List.length_replicate]

theorem splitValueAux_nil (fuel : Nat) : splitValueAux fuel [] = [] := by
  cases fuel <;> rfl

theorem splitValueAux_step (fuel : Nat) (w : List Nat) (hw : w ≠ [])
    (hf : 0 < fuel) :
    splitValueAux fuel w =
      resizeZero (w.take 7) 7 :: splitValueAux (fuel - 1) (w.drop 7) := by
  cases fuel with
  | zero => omega
  | succ f =>
    cases w with
    | nil => exact absurd rfl hw
    | cons b m => rfl

theorem splitValueAux_length : ∀ (fuel : Nat) (v : List Nat),
    v.length ≤ fuel → (splitValueAux fuel v).length = (v.length + 6) / 7
  | fuel, [], _ => by
    rw [splitValueAux_nil]
    rfl
  | 0, a :: l, h => by simp at h
  | fuel+1, a :: l, h => by
    rw [splitValueAux_step (fuel+1) (a :: l) (by simp) (by omega)]
    rw [List.length_cons, Nat.add_sub_cancel,
      splitValueAux_length fuel ((a :: l).drop 7)
        (by simp only [List.length_drop, List.length_cons] at h ⊢; omega)]
    simp only [List.length_drop, List.length_cons]
    omega

theorem splitValue_length (v : List Nat) :
    (splitValue v).length = (v.length + 6) / 7 :=
  splitValueAux_length v.length v (Nat.le_refl _)

theorem splitValue_one (v : List Nat) (h1 : 0 < v.length) (h7 : v.length ≤ 7) :
    splitValue v = [resizeZero v 7] := by
  unfold splitValue
  rw [splitValueAux_step v.length v (by intro h; rw [h] at h1; simp at h1) h1,
    List.take_of_length_le h7, List.drop_eq_nil_of_le h7, splitValueAux_nil]

theorem splitValue_two (v : List Nat) (h8 : 7 < v.length) (h14 : v.length ≤ 14) :
    splitValue v = [resizeZero (v.take 7) 7, resizeZero (v.drop 7) 7] := by
  unfold splitValue
  rw [splitValueAux_step v.length v
    (by intro h; rw [h] at h8; simp at h8) (by omega)]
  have hd : (v.drop 7) ≠ [] := by
    intro h
    have := congrArg List.length h
    simp only [List.length_drop, List.length_nil] at this
    omega
  rw [splitValueAux_step (v.length - 1) (v.drop 7) hd (by omega)]
  have hd7 : (v.drop 7).length ≤ 7 := by
    simp only [List.length_drop]
    omega
  rw [List.take_of_length_le hd7, List.drop_drop]
  have hnil : v.drop (7 + 7) = [] := List.drop_eq_nil_of_le (by omega)
  rw [hnil, splitValueAux_nil]

theorem getEmpty_fresh : ∀ (fuel n start : Nat), n ≤ fuel → start + n ≤ 32 →
    getEmptyIndexes (List.replicate 256 0) 32 fuel n start =
      Except.ok (List.range' start n)
  | fuel, 0, start, _, _ => by
    cases fuel <;> rfl
  | fuel+1, n+1, start, hf, hs => by
    have hoff : start * 8 + 8 ≤ vecLen (List.replicate 256 (0 : Nat)) := by
      rw [vecLen_eq, List.length_replicate]
      omega
    have hread : readSlice (List.replicate 256 (0 : Nat)) (start * 8) 1 = [0] := by
      rw [readSlice_replicate 256 (start * 8) 1 (by omega)]
      rfl
    show (if start * 8 + 8 ≤ vecLen (List.replicate 256 (0 : Nat)) then
      if readSlice (List.replicate 256 (0 : Nat)) (start * 8) 1 = [0] then
        (getEmptyIndexes (List.replicate 256 0) 32 fuel n ((start + 1) % 32)).map
          (start :: ·)
      else getEmptyIndexes (List.replicate 256 0) 32 fuel (n+1) ((start + 1) % 32)
      else Except.error "assert failed: Index out of bounds") = _
    rw [if_pos hoff, if_pos hread]
    cases n with
    | zero =>
      rw [getEmpty_fresh fuel 0 ((start + 1) % 32) (by omega)
        (by have := Nat.mod_lt (start + 1) (show 0 < 32 by omega); omega)]
      rfl
    | succ n2 =>
      have hlt : start + 1 < 32 := by omega
      rw [Nat.mod_eq_of_lt hlt,
        getEmpty_fresh fuel (n2+1) (start + 1) (by omega) (by omega)]
      rfl

theorem hb_setLoop_empty (key : List Nat) (fuel index : Nat) (t : HashTable)
    (hoff : index * 8 + 8 ≤ t.kvs.length)
    (hread : readSlice t.kvs (index * 8) 1 = [0]) :
    setLoop key (fuel+1) index t = Except.ok (t, index) := by
  simp only [setLoop, vecLen_eq]
  rw [if_pos hoff, if_pos hread]

theorem hb_writeAtIndex_ok (t : HashTable) (bucket : List Nat) (index : Nat)
    (hoff : index * 8 + 8 ≤ t.kvs.length) :
    writeAtIndex t bucket index =
      Except.ok ⟨writeSlice t.kvs (index * 8) bucket, t.size,
        t.no_of_taken + 1⟩ := by
  simp only [writeAtIndex, vecLen_eq]
  rw [if_pos hoff]

end HashBucket

namespace HashBucket

theorem hb_new_size : new.size = 32 := rfl

theorem hb_new_taken : new.no_of_taken = 0 := rfl

theorem hb_bind_ok {a b : Type} (x : a) (f : a → Except String b) :
    (Except.ok x >>= f : Except String b) = f x := rfl

theorem hb_writeChunks_one (ch : List Nat) (idx : Nat) (t : HashTable)
    (h : idx * 8 + 8 ≤ t.kvs.length) :
    writeChunks 0 0 [ch] [idx] t =
      Except.ok ⟨writeSlice t.kvs (idx * 8) (valueBucket 1 ch), t.size,
        t.no_of_taken + 1⟩ := by
  show (writeAtIndex t (valueBucket 1 ch) idx >>= fun t1 =>
    writeChunks 0 1 [] [] t1) = _
  rw [hb_writeAtIndex_ok t (valueBucket 1 ch) idx h, hb_bind_ok]
  rfl

theorem hb_writeChunks_two (c0 c1 : List Nat) (i0 i1 : Nat) (t : HashTable)
    (h0 : i0 * 8 + 8 ≤ t.kvs.length)
    (h1 : i1 * 8 + 8 ≤ (writeSlice t.kvs (i0 * 8) (valueBucket 4 c0)).length) :
    writeChunks 1 0 [c0, c1] [i0, i1] t =
      Except.ok ⟨writeSlice (writeSlice t.kvs (i0 * 8) (valueBucket 4 c0))
        (i1 * 8) (valueBucket 1 c1), t.size, t.no_of_taken + 2⟩ := by
  show (writeAtIndex t (valueBucket 4 c0) i0 >>= fun t1 =>
    writeChunks 1 1 [c1] [i1] t1) = _
  rw [hb_writeAtIndex_ok t (valueBucket 4 c0) i0 h0, hb_bind_ok]
  show (writeAtIndex ⟨writeSlice t.kvs (i0 * 8) (valueBucket 4 c0), t.size,
    t.no_of_taken + 1⟩ (valueBucket 1 c1) i1 >>= fun t1 =>
    writeChunks 1 2 [] [] t1) = _
  rw [hb_writeAtIndex_ok _ (valueBucket 1 c1) i1 h1, hb_bind_ok]
  rfl

/-- On a fresh table, a put whose value needs `c = ceil(len/7) ≤ 2`
fragments succeeds: the probe breaks at the empty home slot, `c` free slots
are collected right past it, an index bucket holding exactly those `c`
indices is written at the home slot, each fragment bucket is written in
order, and the occupancy counter ends at `1 + c`. -/
theorem chain_fresh (key v : List Nat) (hk : key.length ≤ 3)
    (hv4 : 4 < v.length) (hv14 : v.length ≤ 14)
    (hwrap : djb2 key % 32 + chunkCount v < 32) :
    ∃ t, set new key v = Except.ok t ∧
      t.no_of_taken = 1 + chunkCount v ∧
      (∃ ib, indexBucket key (List.range' (djb2 key % 32 + 1) (chunkCount v)) =
          Except.ok ib ∧ readSlice t.kvs ((djb2 key % 32) * 8) 8 = ib) ∧
      (∀ j < chunkCount v,
        readSlice t.kvs ((djb2 key % 32 + 1 + j) * 8) 8 =
          valueBucket (if j = chunkCount v - 1 then 1 else j + 4)
            ((splitValue v).getD j [])) := by
  have hhome : djb2 key % 32 < 32 := Nat.mod_lt _ (by omega)
  have hlenv : (splitValue v).length = chunkCount v := splitValue_length v
  have hnotlong : ¬3 < key.length := by omega
  have hnotshort : ¬v.length ≤ 4 := by omega
  have hoffH : (djb2 key % 32) * 8 + 8 ≤ new.kvs.length := by
    rw [hb_new_len]
    omega
  have hreadH : readSlice new.kvs ((djb2 key % 32) * 8) 1 = [0] := by
    show readSlice (List.replicate 256 0) ((djb2 key % 32) * 8) 1 = [0]
    rw [readSlice_replicate 256 _ 1 (by omega)]
    rfl
  have hloop : setLoop key 32 (djb2 key % 32) new =
      Except.ok (new, djb2 key % 32) :=
    hb_setLoop_empty key 31 (djb2 key % 32) new hoffH hreadH
  have hvec : vecLen new.kvs = 256 := by
    rw [vecLen_eq, hb_new_len]
  have hempties : getEmptyIndexes new.kvs 32 (vecLen new.kvs)
      (splitValue v).length (djb2 key % 32 + 1) =
      Except.ok (List.range' (djb2 key % 32 + 1) (chunkCount v)) := by
    rw [hvec, hlenv]
    exact getEmpty_fresh 256 (chunkCount v) (djb2 key % 32 + 1)
      (by unfold chunkCount; omega) (by omega)
  have hset : set new key v =
      (getEmptyIndexes new.kvs 32 (vecLen new.kvs) (splitValue v).length
        (djb2 key % 32 + 1)).bind fun indexes =>
        if (splitValue v).length ≤ 2 then
          (indexBucket key indexes).bind fun ib =>
            (writeAtIndex new ib (djb2 key % 32)).bind fun t2 =>
              if (splitValue v).length = indexes.length then
                writeChunks ((splitValue v).length - 1) 0 (splitValue v)
                  indexes t2
              else Except.error
                "assert failed: chunks and indexes count does not match"
        else Except.error
          "assert failed: Value can only be parted into 2 chunks" := by
    show (if 3 < key.length then Except.ok new else _) = _
    rw [if_neg hnotlong]
    show (setLoop key new.size (djb2 key % new.size) new >>= _) = _
    rw [hb_new_size, hloop, hb_bind_ok]
    show (if v.length ≤ 4 then _ else _) = _
    rw [if_neg hnotshort]
    rfl
  have hc2 : chunkCount v ≤ 2 := by
    unfold chunkCount
    omega
  have hlen2 : (splitValue v).length ≤ 2 := by omega
  have hib : ∃ ib, indexBucket key
      (List.range' (djb2 key % 32 + 1) (chunkCount v)) = Except.ok ib ∧
      ib.length = 8 := by
    have hc12 : chunkCount v = 1 ∨ chunkCount v = 2 := by
      unfold chunkCount
      omega
    rcases hc12 with hc | hc
    · rw [hc, List.range'_one]
      refine ⟨[3] ++ resizeZero key 3 ++ le16 (djb2 key % 32 + 1) ++ [0, 0],
        ?_, ?_⟩
      · unfold indexBucket
        rw [if_pos (by simp)]
      · simp [length_resizeZero, le16]
    · rw [hc, show List.range' (djb2 key % 32 + 1) 2 =
        [djb2 key % 32 + 1, djb2 key % 32 + 2] by simp [List.range']]
      refine ⟨[3] ++ resizeZero key 3 ++ le16 (djb2 key % 32 + 1) ++
        le16 (djb2 key % 32 + 2), ?_, ?_⟩
      · unfold indexBucket
        rw [if_pos (by simp)]
      · simp [length_resizeZero, le16]
  obtain ⟨ib, hibeq, hiblen⟩ := hib
  have hwA : writeAtIndex new ib (djb2 key % 32) =
      Except.ok ⟨writeSlice new.kvs ((djb2 key % 32) * 8) ib, 32, 1⟩ := by
    rw [hb_writeAtIndex_ok new ib (djb2 key % 32) hoffH]
    rfl
  have hlenA : (writeSlice new.kvs ((djb2 key % 32) * 8) ib).length = 256 := by
    rw [length_writeSlice new.kvs ib _ (by rw [hiblen, hb_new_len]; omega),
      hb_new_len]

  have hbindok : ∀ {a b : Type} (x : a) (f : a → Except String b),
      Except.bind (Except.ok x) f = f x := fun _ _ => rfl
  have hvb_len : ∀ (tag : Nat) (ch : List Nat), ch.length = 7 →
      (valueBucket tag ch).length = 8 := by
    intro tag ch hch
    simp [valueBucket, hch]
  rcases (show chunkCount v = 1 ∨ chunkCount v = 2 by
    unfold chunkCount; omega) with hc | hc
  · -- one fragment
    have hw1 : djb2 key % 32 + 1 < 32 := by
      rw [hc] at hwrap
      exact hwrap
    have hlen7 : v.length ≤ 7 := by
      unfold chunkCount at hc
      omega
    have hch : splitValue v = [resizeZero v 7] :=
      splitValue_one v (by omega) hlen7
    have hidx : List.range' (djb2 key % 32 + 1) (chunkCount v) =
        [djb2 key % 32 + 1] := by
      rw [hc, List.range'_one]
    have hch0len : (resizeZero v 7).length = 7 := length_resizeZero v 7
    have hoff1 : (djb2 key % 32 + 1) * 8 + 8 ≤
        (writeSlice new.kvs ((djb2 key % 32) * 8) ib).length := by
      rw [hlenA]
      omega
    refine ⟨⟨writeSlice (writeSlice new.kvs ((djb2 key % 32) * 8) ib)
      ((djb2 key % 32 + 1) * 8) (valueBucket 1 (resizeZero v 7)), 32, 2⟩,
      ?_, ?_, ?_, ?_⟩
    · rw [hset, hempties]
      simp only [hbindok]
      rw [if_pos hlen2, hibeq]
      simp only [hbindok]
      rw [hwA]
      simp only [hbindok]
      rw [if_pos (show (splitValue v).length =
        (List.range' (djb2 key % 32 + 1) (chunkCount v)).length by
          rw [hlenv, List.length_range'])]
      rw [show (splitValue v).length - 1 = 0 by rw [hlenv, hc], hch, hidx]
      exact hb_writeChunks_one (resizeZero v 7) (djb2 key % 32 + 1)
        ⟨writeSlice new.kvs ((djb2 key % 32) * 8) ib, 32, 1⟩ hoff1
    · show (2 : Nat) = 1 + chunkCount v
      rw [hc]
    · refine ⟨ib, hibeq, ?_⟩
      have hL := readSlice_writeSlice_left
        (writeSlice new.kvs ((djb2 key % 32) * 8) ib)
        (valueBucket 1 (resizeZero v 7)) ((djb2 key % 32 + 1) * 8)
        ((djb2 key % 32) * 8) 8 (by rw [hlenA]; omega) (by omega)
      have hself : readSlice (writeSlice new.kvs ((djb2 key % 32) * 8) ib)
          ((djb2 key % 32) * 8) 8 = ib := by
        have h := readSlice_writeSlice_self new.kvs ib ((djb2 key % 32) * 8)
          (by rw [hiblen, hb_new_len]; omega)
        rw [hiblen] at h
        exact h
      exact hL.trans hself
    · intro j hj
      rw [hc] at hj
      have hj0 : j = 0 := by omega
      subst hj0
      rw [hc, hch]
      have h := readSlice_writeSlice_self
        (writeSlice new.kvs ((djb2 key % 32) * 8) ib)
        (valueBucket 1 (resizeZero v 7)) ((djb2 key % 32 + 1) * 8)
        (by rw [hvb_len 1 _ hch0len, hlenA]; omega)
      rw [hvb_len 1 _ hch0len] at h
      exact h
  · -- two fragments
    have hw2 : djb2 key % 32 + 2 < 32 := by
      rw [hc] at hwrap
      exact hwrap
    have hlen8 : 7 < v.length := by
      unfold chunkCount at hc
      omega
    have hch : splitValue v =
        [resizeZero (v.take 7) 7, resizeZero (v.drop 7) 7] :=
      splitValue_two v hlen8 hv14
    have hidx : List.range' (djb2 key % 32 + 1) (chunkCount v) =
        [djb2 key % 32 + 1, djb2 key % 32 + 2] := by
      rw [hc]
      simp [List.range']
    have hch0len : (resizeZero (v.take 7) 7).length = 7 :=
      length_resizeZero _ 7
    have hch1len : (resizeZero (v.drop 7) 7).length = 7 :=
      length_resizeZero _ 7
    have hoff1 : (djb2 key % 32 + 1) * 8 + 8 ≤
        (writeSlice new.kvs ((djb2 key % 32) * 8) ib).length := by
      rw [hlenA]
      omega
    have hlenB : (writeSlice (writeSlice new.kvs ((djb2 key % 32) * 8) ib)
        ((djb2 key % 32 + 1) * 8)
        (valueBucket 4 (resizeZero (v.take 7) 7))).length = 256 := by
      rw [length_writeSlice _ _ _ (by rw [hvb_len 4 _ hch0len, hlenA]; omega),
        hlenA]
    have hoff2 : (djb2 key % 32 + 2) * 8 + 8 ≤
        (writeSlice (writeSlice new.kvs ((djb2 key % 32) * 8) ib)
          ((djb2 key % 32 + 1) * 8)
          (valueBucket 4 (resizeZero (v.take 7) 7))).length := by
      rw [hlenB]
      omega
    refine ⟨⟨writeSlice (writeSlice (writeSlice new.kvs ((djb2 key % 32) * 8)
      ib) ((djb2 key % 32 + 1) * 8) (valueBucket 4 (resizeZero (v.take 7) 7)))
      ((djb2 key % 32 + 2) * 8) (valueBucket 1 (resizeZero (v.drop 7) 7)),
      32, 3⟩, ?_, ?_, ?_, ?_⟩
    · rw [hset, hempties]
      simp only [hbindok]
      rw [if_pos hlen2, hibeq]
      simp only [hbindok]
      rw [hwA]
      simp only [hbindok]
      rw [if_pos (show (splitValue v).length =
        (List.range' (djb2 key % 32 + 1) (chunkCount v)).length by
          rw [hlenv, List.length_range'])]
      rw [show (splitValue v).length - 1 = 1 by rw [hlenv, hc], hch, hidx]
      exact hb_writeChunks_two (resizeZero (v.take 7) 7)
        (resizeZero (v.drop 7) 7) (djb2 key % 32 + 1) (djb2 key % 32 + 2)
        ⟨writeSlice new.kvs ((djb2 key % 32) * 8) ib, 32, 1⟩ hoff1 hoff2
    · show (3 : Nat) = 1 + chunkCount v
      rw [hc]
    · refine ⟨ib, hibeq, ?_⟩
      have hL2 := readSlice_writeSlice_left
        (writeSlice (writeSlice new.kvs ((djb2 key % 32) * 8) ib)
          ((djb2 key % 32 + 1) * 8) (valueBucket 4 (resizeZero (v.take 7) 7)))
        (valueBucket 1 (resizeZero (v.drop 7) 7))
        ((djb2 key % 32 + 2) * 8) ((djb2 key % 32) * 8) 8
        (by rw [hlenB]; omega) (by omega)
      have hL1 := readSlice_writeSlice_left
        (writeSlice new.kvs ((djb2 key % 32) * 8) ib)
        (valueBucket 4 (resizeZero (v.take 7) 7))
        ((djb2 key % 32 + 1) * 8) ((djb2 key % 32) * 8) 8
        (by rw [hlenA]; omega) (by omega)
      have hself : readSlice (writeSlice new.kvs ((djb2 key % 32) * 8) ib)
          ((djb2 key % 32) * 8) 8 = ib := by
        have h := readSlice_writeSlice_self new.kvs ib ((djb2 key % 32) * 8)
          (by rw [hiblen, hb_new_len]; omega)
        rw [hiblen] at h
        exact h
      exact hL2.trans (hL1.trans hself)
    · intro j hj
      rw [hc] at hj
      rcases (show j = 0 ∨ j = 1 by omega) with hj0 | hj0
      · subst hj0
        rw [hc, hch]
        have hL := readSlice_writeSlice_left
          (writeSlice (writeSlice new.kvs ((djb2 key % 32) * 8) ib)
            ((djb2 key % 32 + 1) * 8)
            (valueBucket 4 (resizeZero (v.take 7) 7)))
          (valueBucket 1 (resizeZero (v.drop 7) 7))
          ((djb2 key % 32 + 2) * 8) ((djb2 key % 32 + 1) * 8) 8
          (by rw [hlenB]; omega) (by omega)
        have hself : readSlice (writeSlice (writeSlice new.kvs
            ((djb2 key % 32) * 8) ib) ((djb2 key % 32 + 1) * 8)
            (valueBucket 4 (resizeZero (v.take 7) 7)))
            ((djb2 key % 32 + 1) * 8) 8 =
            valueBucket 4 (resizeZero (v.take 7) 7) := by
          have h := readSlice_writeSlice_self
            (writeSlice new.kvs ((djb2 key % 32) * 8) ib)
            (valueBucket 4 (resizeZero (v.take 7) 7))
            ((djb2 key % 32 + 1) * 8)
            (by rw [hvb_len 4 _ hch0len, hlenA]; omega)
          rw [hvb_len 4 _ hch0len] at h
          exact h
        exact hL.trans hself
      · subst hj0
        rw [hc, hch]
        have h := readSlice_writeSlice_self
          (writeSlice (writeSlice new.kvs ((djb2 key % 32) * 8) ib)
            ((djb2 key % 32 + 1) * 8)
            (valueBucket 4 (resizeZero (v.take 7) 7)))
          (valueBucket 1 (resizeZero (v.drop 7) 7)) ((djb2 key % 32 + 2) * 8)
          (by rw [hvb_len 1 _ hch1len, hlenB]; omega)
        rw [hvb_len 1 _ hch1len] at h
        exact h
end HashBucket

/-! ## Unfolding equations and fuel-normalised probe steps for concrete runs -/

namespace Hash

theorem insertStep_eq (t : HashTable) (key value : List Nat) (hs : t.size ≠ 0) :
    insertStep t key value =
      (setLoop key (itemNew key value) t.size t.size (djb2 key % t.size)
        t.kvs t.no_of_taken).map fun p => ⟨p.1, t.size, p.2⟩ := by
  unfold insertStep
  rw [if_neg hs]

theorem setOp_noextend_eq (t : HashTable) (key value : List Nat)
    (hlf : ¬(load_factor t.size ≤ t.no_of_taken)) (hs : t.size ≠ 0) :
    setOp t key value =
      (setLoop key (itemNew key value) t.size t.size (djb2 key % t.size)
        t.kvs t.no_of_taken).map fun p => ⟨p.1, t.size, p.2⟩ := by
  show set 1 t key value = _
  rw [set_succ_eq, if_neg hlf, insertStep_eq t key value hs]

theorem get_eq (t : HashTable) (key : List Nat) (hs : t.size ≠ 0) :
    get t key = getLoop key t.size t.kvs t.size (djb2 key % t.size) := by
  unfold get
  rw [if_neg hs]

theorem del_eq (d : Nat) (t : HashTable) (key : List Nat) (hs : t.size ≠ 0) :
    del d t key =
      delLoop d key t.size t.size (djb2 key % t.size) t.kvs t.no_of_taken := by
  unfold del
  rw [if_neg hs]

theorem setLoop_none_at (key bucket kvs : List Nat)
    (size fuel f index taken : Nat) (hf : fuel = f + 1)
    (hoff : index * 128 + 128 ≤ kvs.length)
    (hfb : fromBytes (readSlice kvs (index * 128) 128) = none) :
    setLoop key bucket size fuel index kvs taken =
      some (writeSlice kvs (index * 128) bucket, taken + 1) := by
  subst hf
  exact setLoop_none key bucket kvs size f index taken hoff hfb

theorem setLoop_skip_at (key bucket kvs : List Nat)
    (size fuel f index taken : Nat) (item : List Nat × List Nat)
    (hf : fuel = f + 1)
    (hoff : index * 128 + 128 ≤ kvs.length)
    (hfb : fromBytes (readSlice kvs (index * 128) 128) = some item)
    (hne : trimZeros item.1 ≠ key) :
    setLoop key bucket size fuel index kvs taken =
      setLoop key bucket size f ((index + 1) % size) kvs taken := by
  subst hf
  rw [setLoop_some key bucket kvs size f index taken item hoff hfb, if_neg hne]

theorem getLoop_none_at (key kvs : List Nat) (size fuel f index : Nat)
    (hf : fuel = f + 1)
    (hoff : index * 128 + 128 ≤ kvs.length)
    (hfb : fromBytes (readSlice kvs (index * 128) 128) = none) :
    getLoop key size kvs fuel index = some none := by
  subst hf
  exact getLoop_none key kvs size f index hoff hfb

theorem getLoop_skip_at (key kvs : List Nat) (size fuel f index : Nat)
    (item : List Nat × List Nat) (hf : fuel = f + 1)
    (hoff : index * 128 + 128 ≤ kvs.length)
    (hfb : fromBytes (readSlice kvs (index * 128) 128) = some item)
    (hne : trimZeros item.1 ≠ key) :
    getLoop key size kvs fuel index =
      getLoop key size kvs f ((index + 1) % size) := by
  subst hf
  rw [getLoop_some key kvs size f index item hoff hfb, if_neg hne]

theorem getLoop_found_at (key kvs : List Nat) (size fuel f index : Nat)
    (item : List Nat × List Nat) (hf : fuel = f + 1)
    (hoff : index * 128 + 128 ≤ kvs.length)
    (hfb : fromBytes (readSlice kvs (index * 128) 128) = some item)
    (heq : trimZeros item.1 = key) :
    getLoop key size kvs fuel index = some (some (trimZeros item.2)) := by
  subst hf
  rw [getLoop_some key kvs size f index item hoff hfb, if_pos heq]

theorem delLoop_found_at (d : Nat) (key kvs : List Nat)
    (size fuel f index taken : Nat) (item : List Nat × List Nat)
    (hf : fuel = f + 1)
    (hoff : index * 128 + 128 ≤ kvs.length)
    (hfb : fromBytes (readSlice kvs (index * 128) 128) = some item)
    (heq : trimZeros item.1 = key)
    (hnc : ¬((if 0 < taken then taken - 1 else taken) ≤ compactThreshold size)) :
    delLoop d key size fuel index kvs taken =
      some (⟨writeSlice kvs (index * 128) (List.replicate 128 0), size,
        if 0 < taken then taken - 1 else taken⟩, some (trimZeros item.2)) := by
  subst hf
  rw [delLoop_some d key kvs size f index taken item hoff hfb, if_pos heq]
  show (if (if 0 < taken then taken - 1 else taken) ≤ compactThreshold size then
      (compact d ⟨writeSlice kvs (index * 128) (List.replicate 128 0), size,
        if 0 < taken then taken - 1 else taken⟩).map
        (fun t2 => (t2, some (trimZeros item.2)))
    else some (⟨writeSlice kvs (index * 128) (List.replicate 128 0), size,
      if 0 < taken then taken - 1 else taken⟩, some (trimZeros item.2))) = _
  rw [if_neg hnc]

/-- A key that is empty or starts with the padding byte encodes to a slot
whose first byte is the padding byte, which `from_bytes` reads as empty. -/
theorem fromBytes_itemNew_zero (k v : List Nat)
    (hk : k = [] ∨ k.head? = some 0) :
    fromBytes (itemNew k v) = none := by
  have hh : (itemNew k v).head? = some 0 := by
    rcases hk with h | h
    · subst h
      rfl
    · cases k with
      | nil => simp at h
      | cons a ks =>
        have ha : a = 0 := by
          rw [List.head?_cons] at h
          injection h
        subst ha
        rfl
  unfold fromBytes
  rw [hh]
  rfl

end Hash

/-! ## The hash recurrence in the spec's `h*33 + byte` form -/

theorem djb2Step_eq (a c : Nat) : djb2Step a c = (a * 33 + c) % w64 := by
  unfold djb2Step
  rw [Nat.mod_add_mod]
  unfold w64
  omega

theorem foldl_djb2Step_eq_33 : ∀ (l : List Nat) (a : Nat),
    l.foldl djb2Step a = l.foldl (fun h c => (h * 33 + c) % w64) a
  | [], _ => rfl
  | c :: rest, a => by
    rw [List.foldl_cons, List.foldl_cons]
    show rest.foldl djb2Step (djb2Step a c) =
      rest.foldl (fun h c => (h * 33 + c) % w64) ((a * 33 + c) % w64)
    rw [foldl_djb2Step_eq_33 rest (djb2Step a c), djb2Step_eq a c]

theorem foldl_spec33 : ∀ (l : List Nat) (a : Nat),
    l.foldl (fun h c => (33 * h + c) % w64) a =
      l.foldl (fun h c => (h * 33 + c) % w64) a
  | [], _ => rfl
  | c :: rest, a => by
    rw [List.foldl_cons, List.foldl_cons]
    show rest.foldl (fun h c => (33 * h + c) % w64) ((33 * a + c) % w64) =
      rest.foldl (fun h c => (h * 33 + c) % w64) ((a * 33 + c) % w64)
    rw [foldl_spec33 rest ((33 * a + c) % w64), Nat.mul_comm 33 a]

theorem utf8TwoByte_ascii : ∀ (k : List Nat), (∀ c ∈ k, c < 128) →
    utf8TwoByte k = k
  | [], _ => rfl
  | c :: rest, h => by
    have hc : c < 128 := h c (List.mem_cons_self c rest)
    have hrest := utf8TwoByte_ascii rest
      (fun x hx => h x (List.mem_cons_of_mem c hx))
    show (if c < 128 then [c] else [192 + c / 64, 128 + c % 64]) ++
      utf8TwoByte rest = c :: rest
    rw [if_pos hc, hrest]
    rfl

namespace Hash

/-- C3 counterexample run: five records with home slots 0, 0, 1, 2, 3 are
inserted in order (so `[59]` is displaced to slot 1 by `[91]` at slot 0);
deleting `[91]` zeroes slot 0 and `get [59]` then stops at the emptied home
slot and reports absence, a false negative. -/
theorem C3_cex_false_negative :
    ∃ t3 t4,
      insertAll [([91], [118]), ([59], [118]), ([60], [118]), ([61], [118]),
        ([62], [118])] new = some t3 ∧
      get t3 [59] = some (some [118]) ∧
      delOp t3 [91] = some (t4, some [118]) ∧
      get t4 [59] = some none := by
  have hh91 : djb2 [91] % 32 = 0 := by decide
  have hh59 : djb2 [59] % 32 = 0 := by decide
  have hh60 : djb2 [60] % 32 = 1 := by decide
  have hh61 : djb2 [61] % 32 = 2 := by decide
  have hh62 : djb2 [62] % 32 = 3 := by decide
  have hl1 : (writeSlice (List.replicate 4096 0) (0 * 128) (itemNew [91] [118])).length = 4096 := by
    rw [length_writeSlice _ _ _ (by rw [itemNew_length, List.length_replicate]; omega), List.length_replicate]
  have hl2 : (writeSlice (writeSlice (List.replicate 4096 0) (0 * 128) (itemNew [91] [118])) (1 * 128) (itemNew [59] [118])).length = 4096 := by
    rw [length_writeSlice _ _ _ (by rw [itemNew_length, hl1]; omega), hl1]
  have hl3 : (writeSlice (writeSlice (writeSlice (List.replicate 4096 0) (0 * 128) (itemNew [91] [118])) (1 * 128) (itemNew [59] [118])) (2 * 128) (itemNew [60] [118])).length = 4096 := by
    rw [length_writeSlice _ _ _ (by rw [itemNew_length, hl2]; omega), hl2]
  have hl4 : (writeSlice (writeSlice (writeSlice (writeSlice (List.replicate 4096 0) (0 * 128) (itemNew [91] [118])) (1 * 128) (itemNew [59] [118])) (2 * 128) (itemNew [60] [118])) (3 * 128) (itemNew [61] [118])).length = 4096 := by
    rw [length_writeSlice _ _ _ (by rw [itemNew_length, hl3]; omega), hl3]
  have hl5 : (writeSlice (writeSlice (writeSlice (writeSlice (writeSlice (List.replicate 4096 0) (0 * 128) (itemNew [91] [118])) (1 * 128) (itemNew [59] [118])) (2 * 128) (itemNew [60] [118])) (3 * 128) (itemNew [61] [118])) (4 * 128) (itemNew [62] [118])).length = 4096 := by
    rw [length_writeSlice _ _ _ (by rw [itemNew_length, hl4]; omega), hl4]
  have hl6 : (writeSlice (writeSlice (writeSlice (writeSlice (writeSlice (writeSlice (List.replicate 4096 0) (0 * 128) (itemNew [91] [118])) (1 * 128) (itemNew [59] [118])) (2 * 128) (itemNew [60] [118])) (3 * 128) (itemNew [61] [118])) (4 * 128) (itemNew [62] [118])) (0 * 128) (List.replicate 128 0)).length = 4096 := by
    rw [length_writeSlice _ _ _ (by rw [List.length_replicate, hl5]; omega), hl5]
  have hz0_0 : fromBytes (readSlice (List.replicate 4096 0) (0 * 128) 128) = none := by
    rw [readSlice_replicate 4096 (0 * 128) 128 (by omega)]
    exact fromBytes_replicate
  have hr1_0 : readSlice (writeSlice (List.replicate 4096 0) (0 * 128) (itemNew [91] [118])) (0 * 128) 128 = (itemNew [91] [118]) :=
    slotAt_write_self (List.replicate 4096 0) (itemNew [91] [118]) 0 (itemNew_length [91] [118]) (by rw [List.length_replicate]; omega)
  have hr2_1 : readSlice (writeSlice (writeSlice (List.replicate 4096 0) (0 * 128) (itemNew [91] [118])) (1 * 128) (itemNew [59] [118])) (1 * 128) 128 = (itemNew [59] [118]) :=
    slotAt_write_self (writeSlice (List.replicate 4096 0) (0 * 128) (itemNew [91] [118])) (itemNew [59] [118]) 1 (itemNew_length [59] [118]) (by rw [hl1]; omega)
  have hr3_2 : readSlice (writeSlice (writeSlice (writeSlice (List.replicate 4096 0) (0 * 128) (itemNew [91] [118])) (1 * 128) (itemNew [59] [118])) (2 * 128) (itemNew [60] [118])) (2 * 128) 128 = (itemNew [60] [118]) :=
    slotAt_write_self (writeSlice (writeSlice (List.replicate 4096 0) (0 * 128) (itemNew [91] [118])) (1 * 128) (itemNew [59] [118])) (itemNew [60] [118]) 2 (itemNew_length [60] [118]) (by rw [hl2]; omega)
  have hr4_3 : readSlice (writeSlice (writeSlice (writeSlice (writeSlice (List.replicate 4096 0) (0 * 128) (itemNew [91] [118])) (1 * 128) (itemNew [59] [118])) (2 * 128) (itemNew [60] [118])) (3 * 128) (itemNew [61] [118])) (3 * 128) 128 = (itemNew [61] [118]) :=
    slotAt_write_self (writeSlice (writeSlice (writeSlice (List.replicate 4096 0) (0 * 128) (itemNew [91] [118])) (1 * 128) (itemNew [59] [118])) (2 * 128) (itemNew [60] [118])) (itemNew [61] [118]) 3 (itemNew_length [61] [118]) (by rw [hl3]; omega)
  have hz1_1 : fromBytes (readSlice (writeSlice (List.replicate 4096 0) (0 * 128) (itemNew [91] [118])) (1 * 128) 128) = none := by
    rw [show readSlice (writeSlice (List.replicate 4096 0) (0 * 128) (itemNew [91] [118])) (1 * 128) 128 = List.replicate 128 0 from ((slotAt_write_other (List.replicate 4096 0) (itemNew [91] [118]) 0 1 (itemNew_length [91] [118]) (by rw [List.length_replicate]; omega) (by omega)).trans (readSlice_replicate 4096 (1 * 128) 128 (by omega)))]
    exact fromBytes_replicate
  have hz2_2 : fromBytes (readSlice (writeSlice (writeSlice (List.replicate 4096 0) (0 * 128) (itemNew [91] [118])) (1 * 128) (itemNew [59] [118])) (2 * 128) 128) = none := by
    rw [show readSlice (writeSlice (writeSlice (List.replicate 4096 0) (0 * 128) (itemNew [91] [118])) (1 * 128) (itemNew [59] [118])) (2 * 128) 128 = List.replicate 128 0 from (((slotAt_write_other (writeSlice (List.replicate 4096 0) (0 * 128) (itemNew [91] [118])) (itemNew [59] [118]) 1 2 (itemNew_length [59] [118]) (by rw [hl1]; omega) (by omega)).trans (slotAt_write_other (List.replicate 4096 0) (itemNew [91] [118]) 0 2 (itemNew_length [91] [118]) (by rw [List.length_replicate]; omega) (by omega))).trans (readSlice_replicate 4096 (2 * 128) 128 (by omega)))]
    exact fromBytes_replicate
  have hz3_3 : fromBytes (readSlice (writeSlice (writeSlice (writeSlice (List.replicate 4096 0) (0 * 128) (itemNew [91] [118])) (1 * 128) (itemNew [59] [118])) (2 * 128) (itemNew [60] [118])) (3 * 128) 128) = none := by
    rw [show readSlice (writeSlice (writeSlice (writeSlice (List.replicate 4096 0) (0 * 128) (itemNew [91] [118])) (1 * 128) (itemNew [59] [118])) (2 * 128) (itemNew [60] [118])) (3 * 128) 128 = List.replicate 128 0 from ((((slotAt_write_other (writeSlice (writeSlice (List.replicate 4096 0) (0 * 128) (itemNew [91] [118])) (1 * 128) (itemNew [59] [118])) (itemNew [60] [118]) 2 3 (itemNew_length [60] [118]) (by rw [hl2]; omega) (by omega)).trans (slotAt_write_other (writeSlice (List.replicate 4096 0) (0 * 128) (itemNew [91] [118])) (itemNew [59] [118]) 1 3 (itemNew_length [59] [118]) (by rw [hl1]; omega) (by omega))).trans (slotAt_write_other (List.replicate 4096 0) (itemNew [91] [118]) 0 3 (itemNew_length [91] [118]) (by rw [List.length_replicate]; omega) (by omega))).trans (readSlice_replicate 4096 (3 * 128) 128 (by omega)))]
    exact fromBytes_replicate
  have hz4_4 : fromBytes (readSlice (writeSlice (writeSlice (writeSlice (writeSlice (List.replicate 4096 0) (0 * 128) (itemNew [91] [118])) (1 * 128) (itemNew [59] [118])) (2 * 128) (itemNew [60] [118])) (3 * 128) (itemNew [61] [118])) (4 * 128) 128) = none := by
    rw [show readSlice (writeSlice (writeSlice (writeSlice (writeSlice (List.replicate 4096 0) (0 * 128) (itemNew [91] [118])) (1 * 128) (itemNew [59] [118])) (2 * 128) (itemNew [60] [118])) (3 * 128) (itemNew [61] [118])) (4 * 128) 128 = List.replicate 128 0 from (((((slotAt_write_other (writeSlice (writeSlice (writeSlice (List.replicate 4096 0) (0 * 128) (itemNew [91] [118])) (1 * 128) (itemNew [59] [118])) (2 * 128) (itemNew [60] [118])) (itemNew [61] [118]) 3 4 (itemNew_length [61] [118]) (by rw [hl3]; omega) (by omega)).trans (slotAt_write_other (writeSlice (writeSlice (List.replicate 4096 0) (0 * 128) (itemNew [91] [118])) (1 * 128) (itemNew [59] [118])) (itemNew [60] [118]) 2 4 (itemNew_length [60] [118]) (by rw [hl2]; omega) (by omega))).trans (slotAt_write_other (writeSlice (List.replicate 4096 0) (0 * 128) (itemNew [91] [118])) (itemNew [59] [118]) 1 4 (itemNew_length [59] [118]) (by rw [hl1]; omega) (by omega))).trans (slotAt_write_other (List.replicate 4096 0) (itemNew [91] [118]) 0 4 (itemNew_length [91] [118]) (by rw [List.length_replicate]; omega) (by omega))).trans (readSlice_replicate 4096 (4 * 128) 128 (by omega)))]
    exact fromBytes_replicate
  have hr5_0 : readSlice (writeSlice (writeSlice (writeSlice (writeSlice (writeSlice (List.replicate 4096 0) (0 * 128) (itemNew [91] [118])) (1 * 128) (itemNew [59] [118])) (2 * 128) (itemNew [60] [118])) (3 * 128) (itemNew [61] [118])) (4 * 128) (itemNew [62] [118])) (0 * 128) 128 = (itemNew [91] [118]) := (((((slotAt_write_other (writeSlice (writeSlice (writeSlice (writeSlice (List.replicate 4096 0) (0 * 128) (itemNew [91] [118])) (1 * 128) (itemNew [59] [118])) (2 * 128) (itemNew [60] [118])) (3 * 128) (itemNew [61] [118])) (itemNew [62] [118]) 4 0 (itemNew_length [62] [118]) (by rw [hl4]; omega) (by omega)).trans (slotAt_write_other (writeSlice (writeSlice (writeSlice (List.replicate 4096 0) (0 * 128) (itemNew [91] [118])) (1 * 128) (itemNew [59] [118])) (2 * 128) (itemNew [60] [118])) (itemNew [61] [118]) 3 0 (itemNew_length [61] [118]) (by rw [hl3]; omega) (by omega))).trans (slotAt_write_other (writeSlice (writeSlice (List.replicate 4096 0) (0 * 128) (itemNew [91] [118])) (1 * 128) (itemNew [59] [118])) (itemNew [60] [118]) 2 0 (itemNew_length [60] [118]) (by rw [hl2]; omega) (by omega))).trans (slotAt_write_other (writeSlice (List.replicate 4096 0) (0 * 128) (itemNew [91] [118])) (itemNew [59] [118]) 1 0 (itemNew_length [59] [118]) (by rw [hl1]; omega) (by omega))).trans hr1_0)
  have hr5_1 : readSlice (writeSlice (writeSlice (writeSlice (writeSlice (writeSlice (List.replicate 4096 0) (0 * 128) (itemNew [91] [118])) (1 * 128) (itemNew [59] [118])) (2 * 128) (itemNew [60] [118])) (3 * 128) (itemNew [61] [118])) (4 * 128) (itemNew [62] [118])) (1 * 128) 128 = (itemNew [59] [118]) := ((((slotAt_write_other (writeSlice (writeSlice (writeSlice (writeSlice (List.replicate 4096 0) (0 * 128) (itemNew [91] [118])) (1 * 128) (itemNew [59] [118])) (2 * 128) (itemNew [60] [118])) (3 * 128) (itemNew [61] [118])) (itemNew [62] [118]) 4 1 (itemNew_length [62] [118]) (by rw [hl4]; omega) (by omega)).trans (slotAt_write_other (writeSlice (writeSlice (writeSlice (List.replicate 4096 0) (0 * 128) (itemNew [91] [118])) (1 * 128) (itemNew [59] [118])) (2 * 128) (itemNew [60] [118])) (itemNew [61] [118]) 3 1 (itemNew_length [61] [118]) (by rw [hl3]; omega) (by omega))).trans (slotAt_write_other (writeSlice (writeSlice (List.replicate 4096 0) (0 * 128) (itemNew [91] [118])) (1 * 128) (itemNew [59] [118])) (itemNew [60] [118]) 2 1 (itemNew_length [60] [118]) (by rw [hl2]; omega) (by omega))).trans hr2_1)
  have hz6_0 : fromBytes (readSlice (writeSlice (writeSlice (writeSlice (writeSlice (writeSlice (writeSlice (List.replicate 4096 0) (0 * 128) (itemNew [91] [118])) (1 * 128) (itemNew [59] [118])) (2 * 128) (itemNew [60] [118])) (3 * 128) (itemNew [61] [118])) (4 * 128) (itemNew [62] [118])) (0 * 128) (List.replicate 128 0)) (0 * 128) 128) = none := by
    rw [show readSlice (writeSlice (writeSlice (writeSlice (writeSlice (writeSlice (writeSlice (List.replicate 4096 0) (0 * 128) (itemNew [91] [118])) (1 * 128) (itemNew [59] [118])) (2 * 128) (itemNew [60] [118])) (3 * 128) (itemNew [61] [118])) (4 * 128) (itemNew [62] [118])) (0 * 128) (List.replicate 128 0)) (0 * 128) 128 = List.replicate 128 0 from slotAt_write_self (writeSlice (writeSlice (writeSlice (writeSlice (writeSlice (List.replicate 4096 0) (0 * 128) (itemNew [91] [118])) (1 * 128) (itemNew [59] [118])) (2 * 128) (itemNew [60] [118])) (3 * 128) (itemNew [61] [118])) (4 * 128) (itemNew [62] [118])) (List.replicate 128 0) 0 (by rw [List.length_replicate]) (by rw [hl5]; omega)]
    exact fromBytes_replicate
  have hf1_0 : fromBytes (readSlice (writeSlice (List.replicate 4096 0) (0 * 128) (itemNew [91] [118])) (0 * 128) 128) = some (resizeZero [91] 32, resizeZero [118] 96) := by
    rw [hr1_0]
    exact fromBytes_itemNew [91] [118] (by decide) (by decide)
  have hf2_1 : fromBytes (readSlice (writeSlice (writeSlice (List.replicate 4096 0) (0 * 128) (itemNew [91] [118])) (1 * 128) (itemNew [59] [118])) (1 * 128) 128) = some (resizeZero [59] 32, resizeZero [118] 96) := by
    rw [hr2_1]
    exact fromBytes_itemNew [59] [118] (by decide) (by decide)
  have hf3_2 : fromBytes (readSlice (writeSlice (writeSlice (writeSlice (List.replicate 4096 0) (0 * 128) (itemNew [91] [118])) (1 * 128) (itemNew [59] [118])) (2 * 128) (itemNew [60] [118])) (2 * 128) 128) = some (resizeZero [60] 32, resizeZero [118] 96) := by
    rw [hr3_2]
    exact fromBytes_itemNew [60] [118] (by decide) (by decide)
  have hf4_3 : fromBytes (readSlice (writeSlice (writeSlice (writeSlice (writeSlice (List.replicate 4096 0) (0 * 128) (itemNew [91] [118])) (1 * 128) (itemNew [59] [118])) (2 * 128) (itemNew [60] [118])) (3 * 128) (itemNew [61] [118])) (3 * 128) 128) = some (resizeZero [61] 32, resizeZero [118] 96) := by
    rw [hr4_3]
    exact fromBytes_itemNew [61] [118] (by decide) (by decide)
  have hf5_0 : fromBytes (readSlice (writeSlice (writeSlice (writeSlice (writeSlice (writeSlice (List.replicate 4096 0) (0 * 128) (itemNew [91] [118])) (1 * 128) (itemNew [59] [118])) (2 * 128) (itemNew [60] [118])) (3 * 128) (itemNew [61] [118])) (4 * 128) (itemNew [62] [118])) (0 * 128) 128) = some (resizeZero [91] 32, resizeZero [118] 96) := by
    rw [hr5_0]
    exact fromBytes_itemNew [91] [118] (by decide) (by decide)
  have hf5_1 : fromBytes (readSlice (writeSlice (writeSlice (writeSlice (writeSlice (writeSlice (List.replicate 4096 0) (0 * 128) (itemNew [91] [118])) (1 * 128) (itemNew [59] [118])) (2 * 128) (itemNew [60] [118])) (3 * 128) (itemNew [61] [118])) (4 * 128) (itemNew [62] [118])) (1 * 128) 128) = some (resizeZero [59] 32, resizeZero [118] 96) := by
    rw [hr5_1]
    exact fromBytes_itemNew [59] [118] (by decide) (by decide)
  have hstep1 : setOp new [91] [118] = some ⟨(writeSlice (List.replicate 4096 0) (0 * 128) (itemNew [91] [118])), 32, 1⟩ := by
    rw [setOp_noextend_eq new [91] [118] (by decide) (by decide)]
    show (setLoop [91] (itemNew [91] [118]) 32 32 (djb2 [91] % 32) (List.replicate 4096 0) 0).map (fun p => (⟨p.1, 32, p.2⟩ : HashTable)) = _
    rw [hh91, setLoop_none_at [91] (itemNew [91] [118]) (List.replicate 4096 0) 32 32 31 0 0 rfl (by rw [List.length_replicate]; omega) hz0_0]
    rfl
  have hstep2 : setOp ⟨(writeSlice (List.replicate 4096 0) (0 * 128) (itemNew [91] [118])), 32, 1⟩ [59] [118] = some ⟨(writeSlice (writeSlice (List.replicate 4096 0) (0 * 128) (itemNew [91] [118])) (1 * 128) (itemNew [59] [118])), 32, 2⟩ := by
    rw [setOp_noextend_eq ⟨(writeSlice (List.replicate 4096 0) (0 * 128) (itemNew [91] [118])), 32, 1⟩ [59] [118] (by decide) (by decide)]
    show (setLoop [59] (itemNew [59] [118]) 32 32 (djb2 [59] % 32) (writeSlice (List.replicate 4096 0) (0 * 128) (itemNew [91] [118])) 1).map (fun p => (⟨p.1, 32, p.2⟩ : HashTable)) = _
    rw [hh59, setLoop_skip_at [59] (itemNew [59] [118]) (writeSlice (List.replicate 4096 0) (0 * 128) (itemNew [91] [118])) 32 32 31 0 1 (resizeZero [91] 32, resizeZero [118] 96) rfl (by rw [hl1]; omega) hf1_0 (by decide)]
    rw [show ((0 + 1) % 32 : Nat) = 1 from rfl]
    rw [setLoop_none_at [59] (itemNew [59] [118]) (writeSlice (List.replicate 4096 0) (0 * 128) (itemNew [91] [118])) 32 31 30 1 1 rfl (by rw [hl1]; omega) hz1_1]
    rfl
  have hstep3 : setOp ⟨(writeSlice (writeSlice (List.replicate 4096 0) (0 * 128) (itemNew [91] [118])) (1 * 128) (itemNew [59] [118])), 32, 2⟩ [60] [118] = some ⟨(writeSlice (writeSlice (writeSlice (List.replicate 4096 0) (0 * 128) (itemNew [91] [118])) (1 * 128) (itemNew [59] [118])) (2 * 128) (itemNew [60] [118])), 32, 3⟩ := by
    rw [setOp_noextend_eq ⟨(writeSlice (writeSlice (List.replicate 4096 0) (0 * 128) (itemNew [91] [118])) (1 * 128) (itemNew [59] [118])), 32, 2⟩ [60] [118] (by decide) (by decide)]
    show (setLoop [60] (itemNew [60] [118]) 32 32 (djb2 [60] % 32) (writeSlice (writeSlice (List.replicate 4096 0) (0 * 128) (itemNew [91] [118])) (1 * 128) (itemNew [59] [118])) 2).map (fun p => (⟨p.1, 32, p.2⟩ : HashTable)) = _
    rw [hh60, setLoop_skip_at [60] (itemNew [60] [118]) (writeSlice (writeSlice (List.replicate 4096 0) (0 * 128) (itemNew [91] [118])) (1 * 128) (itemNew [59] [118])) 32 32 31 1 2 (resizeZero [59] 32, resizeZero [118] 96) rfl (by rw [hl2]; omega) hf2_1 (by decide)]
    rw [show ((1 + 1) % 32 : Nat) = 2 from rfl]
    rw [setLoop_none_at [60] (itemNew [60] [118]) (writeSlice (writeSlice (List.replicate 4096 0) (0 * 128) (itemNew [91] [118])) (1 * 128) (itemNew [59] [118])) 32 31 30 2 2 rfl (by rw [hl2]; omega) hz2_2]
    rfl
  have hstep4 : setOp ⟨(writeSlice (writeSlice (writeSlice (List.replicate 4096 0) (0 * 128) (itemNew [91] [118])) (1 * 128) (itemNew [59] [118])) (2 * 128) (itemNew [60] [118])), 32, 3⟩ [61] [118] = some ⟨(writeSlice (writeSlice (writeSlice (writeSlice (List.replicate 4096 0) (0 * 128) (itemNew [91] [118])) (1 * 128) (itemNew [59] [118])) (2 * 128) (itemNew [60] [118])) (3 * 128) (itemNew [61] [118])), 32, 4⟩ := by
    rw [setOp_noextend_eq ⟨(writeSlice (writeSlice (writeSlice (List.replicate 4096 0) (0 * 128) (itemNew [91] [118])) (1 * 128) (itemNew [59] [118])) (2 * 128) (itemNew [60] [118])), 32, 3⟩ [61] [118] (by decide) (by decide)]
    show (setLoop [61] (itemNew [61] [118]) 32 32 (djb2 [61] % 32) (writeSlice (writeSlice (writeSlice (List.replicate 4096 0) (0 * 128) (itemNew [91] [118])) (1 * 128) (itemNew [59] [118])) (2 * 128) (itemNew [60] [118])) 3).map (fun p => (⟨p.1, 32, p.2⟩ : HashTable)) = _
    rw [hh61, setLoop_skip_at [61] (itemNew [61] [118]) (writeSlice (writeSlice (writeSlice (List.replicate 4096 0) (0 * 128) (itemNew [91] [118])) (1 * 128) (itemNew [59] [118])) (2 * 128) (itemNew [60] [118])) 32 32 31 2 3 (resizeZero [60] 32, resizeZero [118] 96) rfl (by rw [hl3]; omega) hf3_2 (by decide)]
    rw [show ((2 + 1) % 32 : Nat) = 3 from rfl]
    rw [setLoop_none_at [61] (itemNew [61] [118]) (writeSlice (writeSlice (writeSlice (List.replicate 4096 0) (0 * 128) (itemNew [91] [118])) (1 * 128) (itemNew [59] [118])) (2 * 128) (itemNew [60] [118])) 32 31 30 3 3 rfl (by rw [hl3]; omega) hz3_3]
    rfl
  have hstep5 : setOp ⟨(writeSlice (writeSlice (writeSlice (writeSlice (List.replicate 4096 0) (0 * 128) (itemNew [91] [118])) (1 * 128) (itemNew [59] [118])) (2 * 128) (itemNew [60] [118])) (3 * 128) (itemNew [61] [118])), 32, 4⟩ [62] [118] = some ⟨(writeSlice (writeSlice (writeSlice (writeSlice (writeSlice (List.replicate 4096 0) (0 * 128) (itemNew [91] [118])) (1 * 128) (itemNew [59] [118])) (2 * 128) (itemNew [60] [118])) (3 * 128) (itemNew [61] [118])) (4 * 128) (itemNew [62] [118])), 32, 5⟩ := by
    rw [setOp_noextend_eq ⟨(writeSlice (writeSlice (writeSlice (writeSlice (List.replicate 4096 0) (0 * 128) (itemNew [91] [118])) (1 * 128) (itemNew [59] [118])) (2 * 128) (itemNew [60] [118])) (3 * 128) (itemNew [61] [118])), 32, 4⟩ [62] [118] (by decide) (by decide)]
    show (setLoop [62] (itemNew [62] [118]) 32 32 (djb2 [62] % 32) (writeSlice (writeSlice (writeSlice (writeSlice (List.replicate 4096 0) (0 * 128) (itemNew [91] [118])) (1 * 128) (itemNew [59] [118])) (2 * 128) (itemNew [60] [118])) (3 * 128) (itemNew [61] [118])) 4).map (fun p => (⟨p.1, 32, p.2⟩ : HashTable)) = _
    rw [hh62, setLoop_skip_at [62] (itemNew [62] [118]) (writeSlice (writeSlice (writeSlice (writeSlice (List.replicate 4096 0) (0 * 128) (itemNew [91] [118])) (1 * 128) (itemNew [59] [118])) (2 * 128) (itemNew [60] [118])) (3 * 128) (itemNew [61] [118])) 32 32 31 3 4 (resizeZero [61] 32, resizeZero [118] 96) rfl (by rw [hl4]; omega) hf4_3 (by decide)]
    rw [show ((3 + 1) % 32 : Nat) = 4 from rfl]
    rw [setLoop_none_at [62] (itemNew [62] [118]) (writeSlice (writeSlice (writeSlice (writeSlice (List.replicate 4096 0) (0 * 128) (itemNew [91] [118])) (1 * 128) (itemNew [59] [118])) (2 * 128) (itemNew [60] [118])) (3 * 128) (itemNew [61] [118])) 32 31 30 4 4 rfl (by rw [hl4]; omega) hz4_4]
    rfl
  have hget3 : get ⟨(writeSlice (writeSlice (writeSlice (writeSlice (writeSlice (List.replicate 4096 0) (0 * 128) (itemNew [91] [118])) (1 * 128) (itemNew [59] [118])) (2 * 128) (itemNew [60] [118])) (3 * 128) (itemNew [61] [118])) (4 * 128) (itemNew [62] [118])), 32, 5⟩ [59] = some (some [118]) := by
    rw [get_eq ⟨(writeSlice (writeSlice (writeSlice (writeSlice (writeSlice (List.replicate 4096 0) (0 * 128) (itemNew [91] [118])) (1 * 128) (itemNew [59] [118])) (2 * 128) (itemNew [60] [118])) (3 * 128) (itemNew [61] [118])) (4 * 128) (itemNew [62] [118])), 32, 5⟩ [59] (by decide)]
    show getLoop [59] 32 (writeSlice (writeSlice (writeSlice (writeSlice (writeSlice (List.replicate 4096 0) (0 * 128) (itemNew [91] [118])) (1 * 128) (itemNew [59] [118])) (2 * 128) (itemNew [60] [118])) (3 * 128) (itemNew [61] [118])) (4 * 128) (itemNew [62] [118])) 32 (djb2 [59] % 32) = _
    rw [hh59, getLoop_skip_at [59] (writeSlice (writeSlice (writeSlice (writeSlice (writeSlice (List.replicate 4096 0) (0 * 128) (itemNew [91] [118])) (1 * 128) (itemNew [59] [118])) (2 * 128) (itemNew [60] [118])) (3 * 128) (itemNew [61] [118])) (4 * 128) (itemNew [62] [118])) 32 32 31 0 (resizeZero [91] 32, resizeZero [118] 96) rfl (by rw [hl5]; omega) hf5_0 (by decide)]
    rw [show ((0 + 1) % 32 : Nat) = 1 from rfl]
    rw [getLoop_found_at [59] (writeSlice (writeSlice (writeSlice (writeSlice (writeSlice (List.replicate 4096 0) (0 * 128) (itemNew [91] [118])) (1 * 128) (itemNew [59] [118])) (2 * 128) (itemNew [60] [118])) (3 * 128) (itemNew [61] [118])) (4 * 128) (itemNew [62] [118])) 32 31 30 1 (resizeZero [59] 32, resizeZero [118] 96) rfl (by rw [hl5]; omega) hf5_1 (by decide)]
    rfl
  have hdel : delOp ⟨(writeSlice (writeSlice (writeSlice (writeSlice (writeSlice (List.replicate 4096 0) (0 * 128) (itemNew [91] [118])) (1 * 128) (itemNew [59] [118])) (2 * 128) (itemNew [60] [118])) (3 * 128) (itemNew [61] [118])) (4 * 128) (itemNew [62] [118])), 32, 5⟩ [91] = some (⟨(writeSlice (writeSlice (writeSlice (writeSlice (writeSlice (writeSlice (List.replicate 4096 0) (0 * 128) (itemNew [91] [118])) (1 * 128) (itemNew [59] [118])) (2 * 128) (itemNew [60] [118])) (3 * 128) (itemNew [61] [118])) (4 * 128) (itemNew [62] [118])) (0 * 128) (List.replicate 128 0)), 32, 4⟩, some [118]) := by
    show del 1 ⟨(writeSlice (writeSlice (writeSlice (writeSlice (writeSlice (List.replicate 4096 0) (0 * 128) (itemNew [91] [118])) (1 * 128) (itemNew [59] [118])) (2 * 128) (itemNew [60] [118])) (3 * 128) (itemNew [61] [118])) (4 * 128) (itemNew [62] [118])), 32, 5⟩ [91] = _
    rw [del_eq 1 ⟨(writeSlice (writeSlice (writeSlice (writeSlice (writeSlice (List.replicate 4096 0) (0 * 128) (itemNew [91] [118])) (1 * 128) (itemNew [59] [118])) (2 * 128) (itemNew [60] [118])) (3 * 128) (itemNew [61] [118])) (4 * 128) (itemNew [62] [118])), 32, 5⟩ [91] (by decide)]
    show delLoop 1 [91] 32 32 (djb2 [91] % 32) (writeSlice (writeSlice (writeSlice (writeSlice (writeSlice (List.replicate 4096 0) (0 * 128) (itemNew [91] [118])) (1 * 128) (itemNew [59] [118])) (2 * 128) (itemNew [60] [118])) (3 * 128) (itemNew [61] [118])) (4 * 128) (itemNew [62] [118])) 5 = _
    rw [hh91, delLoop_found_at 1 [91] (writeSlice (writeSlice (writeSlice (writeSlice (writeSlice (List.replicate 4096 0) (0 * 128) (itemNew [91] [118])) (1 * 128) (itemNew [59] [118])) (2 * 128) (itemNew [60] [118])) (3 * 128) (itemNew [61] [118])) (4 * 128) (itemNew [62] [118])) 32 32 31 0 5 (resizeZero [91] 32, resizeZero [118] 96) rfl (by rw [hl5]; omega) hf5_0 (by decide) (by decide)]
    rfl
  have hget4 : get ⟨(writeSlice (writeSlice (writeSlice (writeSlice (writeSlice (writeSlice (List.replicate 4096 0) (0 * 128) (itemNew [91] [118])) (1 * 128) (itemNew [59] [118])) (2 * 128) (itemNew [60] [118])) (3 * 128) (itemNew [61] [118])) (4 * 128) (itemNew [62] [118])) (0 * 128) (List.replicate 128 0)), 32, 4⟩ [59] = some none := by
    rw [get_eq ⟨(writeSlice (writeSlice (writeSlice (writeSlice (writeSlice (writeSlice (List.replicate 4096 0) (0 * 128) (itemNew [91] [118])) (1 * 128) (itemNew [59] [118])) (2 * 128) (itemNew [60] [118])) (3 * 128) (itemNew [61] [118])) (4 * 128) (itemNew [62] [118])) (0 * 128) (List.replicate 128 0)), 32, 4⟩ [59] (by decide)]
    show getLoop [59] 32 (writeSlice (writeSlice (writeSlice (writeSlice (writeSlice (writeSlice (List.replicate 4096 0) (0 * 128) (itemNew [91] [118])) (1 * 128) (itemNew [59] [118])) (2 * 128) (itemNew [60] [118])) (3 * 128) (itemNew [61] [118])) (4 * 128) (itemNew [62] [118])) (0 * 128) (List.replicate 128 0)) 32 (djb2 [59] % 32) = _
    rw [hh59, getLoop_none_at [59] (writeSlice (writeSlice (writeSlice (writeSlice (writeSlice (writeSlice (List.replicate 4096 0) (0 * 128) (itemNew [91] [118])) (1 * 128) (itemNew [59] [118])) (2 * 128) (itemNew [60] [118])) (3 * 128) (itemNew [61] [118])) (4 * 128) (itemNew [62] [118])) (0 * 128) (List.replicate 128 0)) 32 32 31 0 rfl (by rw [hl6]; omega) hz6_0]
  refine ⟨⟨(writeSlice (writeSlice (writeSlice (writeSlice (writeSlice (List.replicate 4096 0) (0 * 128) (itemNew [91] [118])) (1 * 128) (itemNew [59] [118])) (2 * 128) (itemNew [60] [118])) (3 * 128) (itemNew [61] [118])) (4 * 128) (itemNew [62] [118])), 32, 5⟩, ⟨(writeSlice (writeSlice (writeSlice (writeSlice (writeSlice (writeSlice (List.replicate 4096 0) (0 * 128) (itemNew [91] [118])) (1 * 128) (itemNew [59] [118])) (2 * 128) (itemNew [60] [118])) (3 * 128) (itemNew [61] [118])) (4 * 128) (itemNew [62] [118])) (0 * 128) (List.replicate 128 0)), 32, 4⟩, ?_, hget3, hdel, hget4⟩
  show (setOp new [91] [118]).bind (insertAll [([59], [118]), ([60], [118]), ([61], [118]), ([62], [118])]) = some (⟨(writeSlice (writeSlice (writeSlice (writeSlice (writeSlice (List.replicate 4096 0) (0 * 128) (itemNew [91] [118])) (1 * 128) (itemNew [59] [118])) (2 * 128) (itemNew [60] [118])) (3 * 128) (itemNew [61] [118])) (4 * 128) (itemNew [62] [118])), 32, 5⟩ : HashTable)
  rw [hstep1, Option.some_bind]
  show (setOp ⟨(writeSlice (List.replicate 4096 0) (0 * 128) (itemNew [91] [118])), 32, 1⟩ [59] [118]).bind (insertAll [([60], [118]), ([61], [118]), ([62], [118])]) = some (⟨(writeSlice (writeSlice (writeSlice (writeSlice (writeSlice (List.replicate 4096 0) (0 * 128) (itemNew [91] [118])) (1 * 128) (itemNew [59] [118])) (2 * 128) (itemNew [60] [118])) (3 * 128) (itemNew [61] [118])) (4 * 128) (itemNew [62] [118])), 32, 5⟩ : HashTable)
  rw [hstep2, Option.some_bind]
  show (setOp ⟨(writeSlice (writeSlice (List.replicate 4096 0) (0 * 128) (itemNew [91] [118])) (1 * 128) (itemNew [59] [118])), 32, 2⟩ [60] [118]).bind (insertAll [([61], [118]), ([62], [118])]) = some (⟨(writeSlice (writeSlice (writeSlice (writeSlice (writeSlice (List.replicate 4096 0) (0 * 128) (itemNew [91] [118])) (1 * 128) (itemNew [59] [118])) (2 * 128) (itemNew [60] [118])) (3 * 128) (itemNew [61] [118])) (4 * 128) (itemNew [62] [118])), 32, 5⟩ : HashTable)
  rw [hstep3, Option.some_bind]
  show (setOp ⟨(writeSlice (writeSlice (writeSlice (List.replicate 4096 0) (0 * 128) (itemNew [91] [118])) (1 * 128) (itemNew [59] [118])) (2 * 128) (itemNew [60] [118])), 32, 3⟩ [61] [118]).bind (insertAll [([62], [118])]) = some (⟨(writeSlice (writeSlice (writeSlice (writeSlice (writeSlice (List.replicate 4096 0) (0 * 128) (itemNew [91] [118])) (1 * 128) (itemNew [59] [118])) (2 * 128) (itemNew [60] [118])) (3 * 128) (itemNew [61] [118])) (4 * 128) (itemNew [62] [118])), 32, 5⟩ : HashTable)
  rw [hstep4, Option.some_bind]
  show (setOp ⟨(writeSlice (writeSlice (writeSlice (writeSlice (List.replicate 4096 0) (0 * 128) (itemNew [91] [118])) (1 * 128) (itemNew [59] [118])) (2 * 128) (itemNew [60] [118])) (3 * 128) (itemNew [61] [118])), 32, 4⟩ [62] [118]).bind (insertAll []) = some (⟨(writeSlice (writeSlice (writeSlice (writeSlice (writeSlice (List.replicate 4096 0) (0 * 128) (itemNew [91] [118])) (1 * 128) (itemNew [59] [118])) (2 * 128) (itemNew [60] [118])) (3 * 128) (itemNew [61] [118])) (4 * 128) (itemNew [62] [118])), 32, 5⟩ : HashTable)
  rw [hstep5, Option.some_bind]
  rfl

end Hash

namespace Hash

/-- C2: inserting any sequence of distinct in-limit keys through the public
put path of `hash.rs` (including every growth rebuild it triggers) leaves
every inserted record retrievable byte-for-byte; moreover `extend` doubles
the capacity, keeps every stored record retrievable, and is exactly the
fold of the normal put path over the logical records read off the old
slots. -/
theorem C2_growth_preserves (ps : List (List Nat × List Nat))
    (hval : ∀ pr ∈ ps, ValidKey pr.1 ∧ ValidVal pr.2)
    (hnd : (ps.map Prod.fst).Nodup) :
    (∃ t2, insertAll ps new = some t2 ∧
      ∀ pr ∈ ps, get t2 pr.1 = some (some pr.2)) ∧
    (∀ t M, Inv t M →
      (∃ te, extend 0 t = some te ∧ te.size = t.size * 2 ∧
        ∀ pr ∈ M, get te pr.1 = some (some pr.2)) ∧
      extend 0 t =
        pairsFold (set 0) (slotPairs t.kvs t.size)
          ⟨List.replicate (t.size * 2 * 128) 0, t.size * 2, 0⟩) := by
  constructor
  · obtain ⟨t2, M2, hrun, hInv2, hmem, _⟩ :=
      insertAll_Inv ps new [] Inv_new hval hnd (by simp)
    exact ⟨t2, hrun, fun pr hpr => get_Inv_mem t2 M2 hInv2 pr (hmem pr hpr)⟩
  · intro t M hInv
    constructor
    · obtain ⟨te, hrun, hsz, hInvE, hmemE, _⟩ := extend_Inv t M hInv
      exact ⟨te, hrun, hsz,
        fun pr hpr => get_Inv_mem te _ hInvE pr ((hmemE pr).mpr hpr)⟩
    · show reinsertWith (set 0) t.kvs (List.range t.size)
        ⟨List.replicate (t.size * 2 * 128) 0, t.size * 2, 0⟩ = _
      rw [reinsertWith_eq_pairsFold (set 0) t.kvs (List.range t.size)
        ⟨List.replicate (t.size * 2 * 128) 0, t.size * 2, 0⟩
        (fun i hi => by
          rw [hInv.1]
          have h1 := List.mem_range.mp hi
          omega)]
      rfl

/-- Witness for C2 at the single record `([97], [98])`. -/
theorem C2_growth_preserves_witness :
    ∃ t2, insertAll [([97], [98])] new = some t2 ∧
      ∀ pr ∈ [([97], [98])], get t2 pr.1 = some (some pr.2) :=
  (C2_growth_preserves [([97], [98])]
    (by
      intro pr hpr
      rw [List.mem_singleton] at hpr
      subst hpr
      exact ⟨⟨by decide, by decide, by decide, by decide, by decide⟩,
        ⟨by decide, by decide, by decide⟩⟩)
    (by decide)).1

/-- C7: decoding never surfaces a corruption result.  `HashItem::from_bytes`
is total on 128-byte patterns: a zero first byte decodes as empty and any
other first byte decodes as an ordinary record; and `hash_bucket.rs`'s `get`
silently probes past any slot whose tag byte is not 0, 2 or 3 instead of
reporting it. -/
theorem C7_decode_never_surfaces_corruption (b : List Nat) :
    (b.head? = some 0 → fromBytes b = none) ∧
    (¬(b.head? = some 0) → fromBytes b = some (b.take 32, b.drop 32)) ∧
    (∀ (key : List Nat) (t : HashBucket.HashTable) (fuel idx tg : Nat),
      idx * 8 + 8 ≤ vecLen t.kvs →
      readSlice t.kvs (idx * 8) 1 = [tg] →
      tg ≠ 0 → tg ≠ 2 → tg ≠ 3 →
      HashBucket.getLoop key t (fuel + 1) idx =
        HashBucket.getLoop key t fuel ((idx + 1) % t.size)) := by
  refine ⟨?_, ?_, ?_⟩
  · intro h
    unfold fromBytes
    rw [if_pos h]
  · intro h
    unfold fromBytes
    rw [if_neg h]
  · intro key t fuel idx tg hoff hread h0 h2 h3
    show (if idx * 8 + 8 ≤ vecLen t.kvs then
        if readSlice t.kvs (idx * 8) 1 = [0] then
          HashBucket.getLoop key t fuel ((idx + 1) % t.size)
        else
          if (readSlice t.kvs (idx * 8) 1).headD 0 = 2 ∧
              trimZeros (readSlice t.kvs (idx * 8 + 1) 3) = key then
            Except.ok (some (trimZeros (readSlice t.kvs (idx * 8 + 3) 5)))
          else
            if (readSlice t.kvs (idx * 8) 1).headD 0 = 3 ∧
                trimZeros (readSlice t.kvs (idx * 8 + 1) 3) = key then
              (HashBucket.readChain t.kvs (HashBucket.chainIndexes
                (readSlice t.kvs (idx * 8 + 3) 5))).bind
                fun frags => Except.ok (some (trimZeros frags))
            else HashBucket.getLoop key t fuel ((idx + 1) % t.size)
      else Except.error "slice out of bounds") =
      HashBucket.getLoop key t fuel ((idx + 1) % t.size)
    rw [if_pos hoff, hread,
      if_neg (show ¬([tg] = [0]) by simp [h0]),
      if_neg (show ¬(List.headD [tg] 0 = 2 ∧
        trimZeros (readSlice t.kvs (idx * 8 + 1) 3) = key) by simp [h2]),
      if_neg (show ¬(List.headD [tg] 0 = 3 ∧
        trimZeros (readSlice t.kvs (idx * 8 + 1) 3) = key) by simp [h3])]

/-- Witness for C7 at the unrecognised-tag pattern `7 :: 0^127`. -/
theorem C7_decode_never_surfaces_corruption_witness :
    fromBytes (7 :: List.replicate 127 0) =
      some ((7 :: List.replicate 127 0).take 32,
        (7 :: List.replicate 127 0).drop 32) :=
  (C7_decode_never_surfaces_corruption (7 :: List.replicate 127 0)).2.1
    (by decide)

/-- C7 counterexample to the spec's claim: the byte pattern with tag byte
255 (recognised by no encoding) decodes as an ordinary occupied record, not
as a distinct corruption result. -/
theorem C7_cex_unknown_tag_decodes_as_record :
    fromBytes (255 :: List.replicate 127 0) =
      some (255 :: List.replicate 31 0, List.replicate 96 0) := by decide

/-- C9: every sequence of public `set`/`get`/`del` calls on a fresh
`hash.rs` table completes without a panic, and the capacity stays strictly
positive (so the `%`-by-size home-index computation is always defined),
through every delete-triggered compaction. -/
theorem C9_operations_total_size_positive (ops : List Op) :
    ∃ t2, runOps ops new = some t2 ∧ 0 < t2.size := by
  obtain ⟨t2, h, hwf⟩ := runOps_wf ops new wf_new
  exact ⟨t2, h, hwf.1⟩

/-- C10: a slot decodes as occupied exactly when its first byte is nonzero,
so a `set` with an empty key or a key starting with the zero padding byte
writes a slot indistinguishable from empty: on a fresh table the write
succeeds and bumps the counter to 1, yet the written slot decodes as empty
and `get` reports absence. -/
theorem C10_zero_head_key_unretrievable (k v : List Nat)
    (hk : k = [] ∨ k.head? = some 0) :
    (∀ b : List Nat, (fromBytes b).isSome = true ↔ ¬(b.head? = some 0)) ∧
    ∃ t, setOp new k v = some t ∧ t.no_of_taken = 1 ∧
      fromBytes (readSlice t.kvs ((djb2 k % 32) * 128) 128) = none ∧
      get t k = some none := by
  constructor
  · intro b
    unfold fromBytes
    by_cases h : b.head? = some 0
    · rw [if_pos h]
      simp [h]
    · rw [if_neg h]
      simp [h]
  · have hzero : fromBytes (itemNew k v) = none := fromBytes_itemNew_zero k v hk
    have hslot : readSlice (writeSlice (List.replicate 4096 0)
        ((djb2 k % 32) * 128) (itemNew k v)) ((djb2 k % 32) * 128) 128 =
        itemNew k v :=
      slotAt_write_self (List.replicate 4096 0) (itemNew k v) (djb2 k % 32)
        (itemNew_length k v) (by rw [List.length_replicate]; omega)
    have hlen : (writeSlice (List.replicate 4096 0) ((djb2 k % 32) * 128)
        (itemNew k v)).length = 4096 := by
      rw [length_writeSlice _ _ _
        (by rw [itemNew_length, List.length_replicate]; omega),
        List.length_replicate]
    have hfbW : fromBytes (readSlice (writeSlice (List.replicate 4096 0)
        ((djb2 k % 32) * 128) (itemNew k v)) ((djb2 k % 32) * 128) 128) =
        none := by
      rw [hslot]
      exact hzero
    refine ⟨⟨writeSlice (List.replicate 4096 0) ((djb2 k % 32) * 128)
      (itemNew k v), 32, 1⟩, ?_, rfl, hfbW, ?_⟩
    · rw [setOp_noextend_eq new k v (by decide) (by decide)]
      show (setLoop k (itemNew k v) 32 32 (djb2 k % 32)
        (List.replicate 4096 0) 0).map
        (fun p => (⟨p.1, 32, p.2⟩ : HashTable)) = _
      rw [setLoop_none_at k (itemNew k v) (List.replicate 4096 0) 32 32 31
        (djb2 k % 32) 0 rfl (by rw [List.length_replicate]; omega)
        (by rw [readSlice_replicate 4096 _ 128 (by omega)]
            exact fromBytes_replicate)]
      rfl
    · rw [get_eq ⟨writeSlice (List.replicate 4096 0) ((djb2 k % 32) * 128)
        (itemNew k v), 32, 1⟩ k (by show (32 : Nat) ≠ 0; decide)]
      show getLoop k 32 (writeSlice (List.replicate 4096 0)
        ((djb2 k % 32) * 128) (itemNew k v)) 32 (djb2 k % 32) = some none
      rw [getLoop_none_at k _ 32 32 31 (djb2 k % 32) rfl
        (by rw [hlen]; omega) hfbW]

/-- Witness for C10 at the key `[0]`. -/
theorem C10_zero_head_key_unretrievable_witness :
    (∀ b : List Nat, (fromBytes b).isSome = true ↔ ¬(b.head? = some 0)) ∧
    ∃ t, setOp new [0] [7] = some t ∧ t.no_of_taken = 1 ∧
      fromBytes (readSlice t.kvs ((djb2 [0] % 32) * 128) 128) = none ∧
      get t [0] = some none :=
  C10_zero_head_key_unretrievable [0] [7] (Or.inr rfl)

end Hash

namespace HashBucket

set_option maxRecDepth 100000 in
/-- C1: the round-trip contract is violated by `hash_bucket.rs`'s `get`,
which reads the stored value at `offset+3..offset+8` (one byte early, into
the key field) instead of `offset+4..offset+8`: putting key `"1"` with
value `"1"` on a fresh table and reading it back yields the 5 trimmed
bytes `[0, 49]`, not the stored value `[49]`. -/
theorem C1_roundtrip_value_misread :
    (set new [49] [49]).map (fun t => get t [49]) =
      Except.ok (Except.ok (some [0, 49])) ∧
    (set new [49] [49]).map (fun t => get t [49]) ≠
      Except.ok (Except.ok (some [49])) := by
  constructor
  · decide
  · decide

/-- C3: delete marks the slot as all-zero Empty, not as a tombstone —
`_del_at_index` overwrites the 8 slot bytes with zeros, the exact Empty
pattern; and `hash.rs`'s `get` probe stops with absence at the first
empty slot it meets, so probe sequences passing a deleted slot are cut
short there. -/
theorem C3_delete_marks_slot_empty (t : HashTable) (index : Nat)
    (hoff : index * 8 + 8 ≤ t.kvs.length) :
    (∃ t2, delAtIndex t index = Except.ok t2 ∧
      t2.kvs = writeSlice t.kvs (index * 8) (List.replicate 8 0) ∧
      readSlice t2.kvs (index * 8) 8 = List.replicate 8 0) ∧
    (∀ (key kvs : List Nat) (size fuel idx : Nat),
      idx * 128 + 128 ≤ kvs.length →
      Hash.fromBytes (readSlice kvs (idx * 128) 128) = none →
      Hash.getLoop key size kvs (fuel + 1) idx = some none) := by
  constructor
  · refine ⟨⟨writeSlice t.kvs (index * 8) (List.replicate 8 0), t.size,
      t.no_of_taken - 1⟩, ?_, rfl, ?_⟩
    · show (if index * 8 + 8 ≤ vecLen t.kvs then
        Except.ok (⟨writeSlice t.kvs (index * 8) (List.replicate 8 0), t.size,
          t.no_of_taken - 1⟩ : HashTable)
        else Except.error "slice out of bounds") = _
      rw [if_pos (by rw [vecLen_eq]; exact hoff)]
    · show readSlice (writeSlice t.kvs (index * 8) (List.replicate 8 0))
        (index * 8) 8 = List.replicate 8 0
      have h := readSlice_writeSlice_self t.kvs (List.replicate 8 0)
        (index * 8) (by rw [List.length_replicate]; exact hoff)
      rw [List.length_replicate] at h
      exact h
  · intro key kvs size fuel idx hoff2 hfb
    exact Hash.getLoop_none key kvs size fuel idx hoff2 hfb

/-- Witness for C3 at slot 6 of a fresh bucket table. -/
theorem C3_delete_marks_slot_empty_witness :
    (∃ t2, delAtIndex new 6 = Except.ok t2 ∧
      t2.kvs = writeSlice new.kvs (6 * 8) (List.replicate 8 0) ∧
      readSlice t2.kvs (6 * 8) 8 = List.replicate 8 0) ∧
    (∀ (key kvs : List Nat) (size fuel idx : Nat),
      idx * 128 + 128 ≤ kvs.length →
      Hash.fromBytes (readSlice kvs (idx * 128) 128) = none →
      Hash.getLoop key size kvs (fuel + 1) idx = some none) :=
  C3_delete_marks_slot_empty new 6 (by rw [hb_new_len]; omega)

/-- C4: the fragment chain is capped, not dynamic.  For a value needing
`c = ceil(len/7) ≤ 2` fragments the put on a fresh table does write a
chain head plus `c` ordered fragment slots, but any value needing three
or more fragments makes `set` fail its hard-coded
`chunks.len() <= 2` assertion. -/
theorem C4_chain_capped_at_two (key v : List Nat) (hk : key.length ≤ 3)
    (hv4 : 4 < v.length)
    (hwrap : djb2 key % 32 + chunkCount v < 32) :
    (v.length ≤ 14 →
      ∃ t, set new key v = Except.ok t ∧
        (∃ ib, indexBucket key
            (List.range' (djb2 key % 32 + 1) (chunkCount v)) =
            Except.ok ib ∧
          readSlice t.kvs ((djb2 key % 32) * 8) 8 = ib) ∧
        (∀ j < chunkCount v,
          readSlice t.kvs ((djb2 key % 32 + 1 + j) * 8) 8 =
            valueBucket (if j = chunkCount v - 1 then 1 else j + 4)
              ((splitValue v).getD j []))) ∧
    (14 < v.length →
      set new key v =
        Except.error "assert failed: Value can only be parted into 2 chunks") := by
  constructor
  · intro hv14
    obtain ⟨t, h1, _, h3, h4⟩ := chain_fresh key v hk hv4 hv14 hwrap
    exact ⟨t, h1, h3, h4⟩
  · intro h15
    have hlenv : (splitValue v).length = chunkCount v := splitValue_length v
    have hnotlong : ¬3 < key.length := by omega
    have hnotshort : ¬v.length ≤ 4 := by omega
    have hoffH : (djb2 key % 32) * 8 + 8 ≤ new.kvs.length := by
      rw [hb_new_len]
      omega
    have hreadH : readSlice new.kvs ((djb2 key % 32) * 8) 1 = [0] := by
      show readSlice (List.replicate 256 0) ((djb2 key % 32) * 8) 1 = [0]
      rw [readSlice_replicate 256 _ 1 (by omega)]
      rfl
    have hloop : setLoop key 32 (djb2 key % 32) new =
        Except.ok (new, djb2 key % 32) :=
      hb_setLoop_empty key 31 (djb2 key % 32) new hoffH hreadH
    have hempties : getEmptyIndexes new.kvs 32 (vecLen new.kvs)
        (splitValue v).length (djb2 key % 32 + 1) =
        Except.ok (List.range' (djb2 key % 32 + 1) (chunkCount v)) := by
      rw [show vecLen new.kvs = 256 by rw [vecLen_eq, hb_new_len], hlenv]
      exact getEmpty_fresh 256 (chunkCount v) (djb2 key % 32 + 1)
        (by omega) (by omega)
    have hset : set new key v =
        (getEmptyIndexes new.kvs 32 (vecLen new.kvs) (splitValue v).length
          (djb2 key % 32 + 1)).bind fun indexes =>
          if (splitValue v).length ≤ 2 then
            (indexBucket key indexes).bind fun ib =>
              (writeAtIndex new ib (djb2 key % 32)).bind fun t2 =>
                if (splitValue v).length = indexes.length then
                  writeChunks ((splitValue v).length - 1) 0 (splitValue v)
                    indexes t2
                else Except.error
                  "assert failed: chunks and indexes count does not match"
          else Except.error
            "assert failed: Value can only be parted into 2 chunks" := by
      show (if 3 < key.length then Except.ok new else _) = _
      rw [if_neg hnotlong]
      show (setLoop key new.size (djb2 key % new.size) new >>= _) = _
      rw [hb_new_size, hloop, hb_bind_ok]
      show (if v.length ≤ 4 then _ else _) = _
      rw [if_neg hnotshort]
      rfl
    have hbindok : ∀ {a b : Type} (x : a) (f : a → Except String b),
        Except.bind (Except.ok x) f = f x := fun _ _ => rfl
    rw [hset, hempties]
    simp only [hbindok]
    rw [if_neg (show ¬((splitValue v).length ≤ 2) by
      rw [hlenv]
      unfold chunkCount
      omega)]

/-- Witness for C4 at key `"1"` and a 7-byte (one-fragment) value. -/
theorem C4_chain_capped_at_two_witness :
    ((List.replicate 7 97 : List Nat).length ≤ 14 →
      ∃ t, set new [49] (List.replicate 7 97) = Except.ok t ∧
        (∃ ib, indexBucket [49]
            (List.range' (djb2 [49] % 32 + 1)
              (chunkCount (List.replicate 7 97))) = Except.ok ib ∧
          readSlice t.kvs ((djb2 [49] % 32) * 8) 8 = ib) ∧
        (∀ j < chunkCount (List.replicate 7 97),
          readSlice t.kvs ((djb2 [49] % 32 + 1 + j) * 8) 8 =
            valueBucket
              (if j = chunkCount (List.replicate 7 97) - 1 then 1 else j + 4)
              ((splitValue (List.replicate 7 97)).getD j []))) ∧
    (14 < (List.replicate 7 97 : List Nat).length →
      set new [49] (List.replicate 7 97) =
        Except.error "assert failed: Value can only be parted into 2 chunks") :=
  C4_chain_capped_at_two [49] (List.replicate 7 97) (by decide) (by decide)
    (by decide)

set_option maxRecDepth 100000 in
/-- C4 counterexample to the spec's dynamic-chain claim: a 15-byte value
needs 3 fragments and `set` fails the hard-coded 2-chunk assertion. -/
theorem C4_cex_three_fragments_assert :
    set new [107] (List.replicate 15 49) =
      Except.error "assert failed: Value can only be parted into 2 chunks" ∧
    chunkCount (List.replicate 15 49) = 3 := by
  constructor
  · decide
  · decide

/-- C6: an oversized key is not rejected with a typed failure —
`hash_bucket.rs`'s `set` prints to stderr and returns normally with the
table untouched, so the caller observes a silent success. -/
theorem C6_oversized_key_silently_dropped (t : HashTable)
    (key value : List Nat) (hk : 3 < key.length) :
    set t key value = Except.ok t := by
  show (if 3 < key.length then Except.ok t else _) = _
  rw [if_pos hk]

/-- Witness for C6 at a 4-byte key. -/
theorem C6_oversized_key_silently_dropped_witness :
    set new [1, 2, 3, 4] [118] = Except.ok new :=
  C6_oversized_key_silently_dropped new [1, 2, 3, 4] [118] (by decide)

set_option maxRecDepth 100000 in
/-- C6 counterexample to the spec's typed-rejection claim: a put with the
4-byte key `"aaaa"` returns `Ok` with the table unchanged instead of a
`KeyTooLong` failure. -/
theorem C6_cex_long_key_returns_ok :
    set new [97, 97, 97, 97] [118] = Except.ok new := by decide

/-- C8: the occupancy counter counts occupied slots, not logical keys —
`_write_at_index` increments it once per slot written, so one put of a
chained value leaves `taken = 1 + c > 1` for a single logical key. -/
theorem C8_taken_counts_slots_not_keys (key v : List Nat)
    (hk : key.length ≤ 3) (hv4 : 4 < v.length) (hv14 : v.length ≤ 14)
    (hwrap : djb2 key % 32 + chunkCount v < 32) :
    ∃ t, set new key v = Except.ok t ∧
      t.no_of_taken = 1 + chunkCount v ∧ 1 < 1 + chunkCount v := by
  obtain ⟨t, h1, h2, _, _⟩ := chain_fresh key v hk hv4 hv14 hwrap
  refine ⟨t, h1, h2, ?_⟩
  unfold chunkCount
  omega

/-- Witness for C8 at key `"1"` and an 8-byte (two-fragment) value. -/
theorem C8_taken_counts_slots_not_keys_witness :
    ∃ t, set new [49] (List.replicate 8 97) = Except.ok t ∧
      t.no_of_taken = 1 + chunkCount (List.replicate 8 97) ∧
      1 < 1 + chunkCount (List.replicate 8 97) :=
  C8_taken_counts_slots_not_keys [49] (List.replicate 8 97) (by decide)
    (by decide) (by decide) (by decide)

set_option maxRecDepth 100000 in
/-- C8 counterexample to the logical-key-count claim: one put of an 8-byte
value leaves the counter at 3 (index slot plus two fragment slots) for a
single logical key. -/
theorem C8_cex_taken_three_for_one_key :
    (set new [107] (List.replicate 8 49)).map (fun t => t.no_of_taken) =
      Except.ok 3 ∧ (3 : Nat) ≠ 1 := by
  constructor
  · decide
  · decide

end HashBucket

/-- C5: the source hash is the pure deterministic djb2 recurrence
`h = h*33 + c mod 2^64` from seed 5381 and the home slot is `hash mod N`,
but it folds over the key's Unicode scalar values (Rust `chars()`), which
coincides with the spec's per-UTF-8-byte fold exactly on ASCII keys. -/
theorem C5_hash_per_char_not_per_byte (k : List Nat) (size : Nat)
    (hs : 0 < size) (hascii : ∀ c ∈ k, c < 128) :
    djb2 k = k.foldl (fun h c => (h * 33 + c) % w64) 5381 ∧
    utf8TwoByte k = k ∧
    djb2 k = djb2SpecPerByte (utf8TwoByte k) ∧
    Hash.homeIdx size k = djb2 k % size ∧
    Hash.homeIdx size k < size := by
  refine ⟨foldl_djb2Step_eq_33 k 5381, utf8TwoByte_ascii k hascii, ?_, rfl,
    Nat.mod_lt _ hs⟩
  rw [utf8TwoByte_ascii k hascii]
  show k.foldl djb2Step 5381 = k.foldl (fun h c => (33 * h + c) % w64) 5381
  rw [foldl_djb2Step_eq_33 k 5381, foldl_spec33 k 5381]

/-- Witness for C5 at the ASCII key `"hi"` and capacity 32. -/
theorem C5_hash_per_char_not_per_byte_witness :
    djb2 [104, 105] =
      ([104, 105] : List Nat).foldl (fun h c => (h * 33 + c) % w64) 5381 ∧
    utf8TwoByte [104, 105] = [104, 105] ∧
    djb2 [104, 105] = djb2SpecPerByte (utf8TwoByte [104, 105]) ∧
    Hash.homeIdx 32 [104, 105] = djb2 [104, 105] % 32 ∧
    Hash.homeIdx 32 [104, 105] < 32 :=
  C5_hash_per_char_not_per_byte [104, 105] 32 (by decide) (by decide)

/-- C5 counterexample to the per-byte reading: for the one-character
non-ASCII key U+00E9 the source hashes the scalar value 233 while the
spec's per-byte fold hashes the UTF-8 bytes `[195, 169]`, and the two
disagree. -/
theorem C5_cex_nonascii_key_diverges :
    djb2 [233] ≠ djb2SpecPerByte (utf8TwoByte [233]) ∧
    utf8TwoByte [233] = [195, 169] := by
  constructor
  · decide
  · decide
